import Mathlib

/-!
# BusTub B+ tree index: shallow embedding and checked properties

Embedding of `src/storage/index/b_plus_tree.cpp` and
`src/storage/page/b_plus_tree_leaf_page.cpp`.

Conventions of the embedding

* A page of the buffer pool is a record of the header fields of `BPlusTreePage`,
  the leaf field `next_page_id_`, and the slot array `array_` seen through the
  leaf view and through the internal view.  The byte layout (and so the aliasing
  of the two views of one page) is not represented.
* `int` values are unbounded integers: the arithmetic of the source on sizes and
  slot numbers (`+ 1`, `- 1`, `/ 2`) is exact as long as they stay below the
  32-bit limit, which the size of a page guarantees.
* A C++ pointer into a pinned page is the page id; a write through the pointer
  is a write to the page stored in the pool under that id.
* An object created with `new` is a local value of the function; it is never
  copied into a page by the source, and it is dropped when the function ends.
* Loops whose trip count is not bounded by the data (the root-to-leaf descent,
  the recursion of `InsertInParent`) take a fuel argument; running out of fuel
  is reported as `Ret.diverged`, dereferencing a null page as `Ret.crashed`.
-/

namespace bustub

/-! ## Basic types -/

abbrev page_id_t := Int

/-- Constant `INVALID_PAGE_ID` of `common/config.h` (value -1, as in line 99 and
212 of `b_plus_tree.cpp`, where `-1` is passed for the parent of a root). -/
def INVALID_PAGE_ID : page_id_t := -1

/-- Keys (`GenericKey<N>`): the tree only copies keys and hands them to the
comparator, so a key is modelled by the integer it encodes. -/
abbrev KeyType := Int

/-- Values (`RID`): only copied by the tree; modelled by an integer. -/
abbrev ValueType := Int

/-- A comparator returns an `int`; the source tests it against `-1` and `0`. -/
abbrev KeyComparator := KeyType → KeyType → Int

/-- The comparator of integer keys (`GenericComparator`): -1, 0 or 1. -/
def GenericComparator : KeyComparator :=
  fun a b => if a < b then -1 else if b < a then 1 else 0

/-- Tag `IndexPageType` of `b_plus_tree_page.h`; the first value is the one a
zero-filled page carries. -/
inductive IndexPageType where
  | INVALID_INDEX_PAGE
  | LEAF_PAGE
  | INTERNAL_PAGE
  deriving DecidableEq, Repr

/-- The contents of one tree page (`BPlusTreePage` header, plus the fields of
`BPlusTreeLeafPage` and `BPlusTreeInternalPage`). -/
structure BPlusTreePage where
  page_type : IndexPageType
  size : Int
  max_size : Int
  parent_page_id : page_id_t
  page_id : page_id_t
  next_page_id : page_id_t
  leaf_array : Int → KeyType × ValueType
  internal_array : Int → KeyType × page_id_t

namespace BPlusTreePage

/-- Modelled from the spec: the header accessors of `b_plus_tree_page.h`
(`IsLeafPage`, `GetSize`, `SetSize`, ...), which are not under `src/`; they
read and write the header fields named in the data model. -/
def IsLeafPage (p : BPlusTreePage) : Bool :=
  decide (p.page_type = IndexPageType.LEAF_PAGE)

def GetSize (p : BPlusTreePage) : Int := p.size

def SetSize (p : BPlusTreePage) (size : Int) : BPlusTreePage := { p with size := size }

def IncreaseSize (p : BPlusTreePage) (amount : Int) : BPlusTreePage :=
  { p with size := p.size + amount }

def GetMaxSize (p : BPlusTreePage) : Int := p.max_size

def SetMaxSize (p : BPlusTreePage) (max_size : Int) : BPlusTreePage :=
  { p with max_size := max_size }

def GetParentPageId (p : BPlusTreePage) : page_id_t := p.parent_page_id

def SetParentPageId (p : BPlusTreePage) (parent_id : page_id_t) : BPlusTreePage :=
  { p with parent_page_id := parent_id }

def GetPageId (p : BPlusTreePage) : page_id_t := p.page_id

def SetPageId (p : BPlusTreePage) (page_id : page_id_t) : BPlusTreePage :=
  { p with page_id := page_id }

def SetPageType (p : BPlusTreePage) (page_type : IndexPageType) : BPlusTreePage :=
  { p with page_type := page_type }

end BPlusTreePage

/-- A zero-filled page: what `new T()` yields for the page classes, and what a
pool that clears its frames hands out. -/
def zeroPage : BPlusTreePage :=
  { page_type := IndexPageType.INVALID_INDEX_PAGE, size := 0, max_size := 0,
    parent_page_id := 0, page_id := 0, next_page_id := 0,
    leaf_array := fun _ => (0, 0), internal_array := fun _ => (0, 0) }

/-! ## Leaf page (`b_plus_tree_leaf_page.cpp`) -/

namespace BPlusTreeLeafPage

def GetNextPageId (p : BPlusTreePage) : page_id_t := p.next_page_id

def SetNextPageId (p : BPlusTreePage) (next_page_id : page_id_t) : BPlusTreePage :=
  { p with next_page_id := next_page_id }

/-- Lines 31-39: `Init`; the last statement stores the field into itself. -/
def Init (p : BPlusTreePage) (page_id parent_id : page_id_t) (max_size : Int) : BPlusTreePage :=
  let p1 := p.SetPageId page_id
  let p2 := p1.SetParentPageId parent_id
  let p3 := p2.SetMaxSize max_size
  let p4 := p3.SetPageType IndexPageType.LEAF_PAGE
  let p5 := p4.SetSize 0
  SetNextPageId p5 (GetNextPageId p5)

def KeyAt (p : BPlusTreePage) (index : Int) : KeyType := (p.leaf_array index).1

def ValueAt (p : BPlusTreePage) (index : Int) : ValueType := (p.leaf_array index).2

def SetKeyAt (p : BPlusTreePage) (index : Int) (key : KeyType) : BPlusTreePage :=
  { p with leaf_array := fun j => if j = index then (key, (p.leaf_array j).2) else p.leaf_array j }

def SetValueAt (p : BPlusTreePage) (index : Int) (value : ValueType) : BPlusTreePage :=
  { p with leaf_array := fun j => if j = index then ((p.leaf_array j).1, value) else p.leaf_array j }

/-- The statement `array_[index] = {key, value}` (lines 91 and 99). -/
def SetEntryAt (p : BPlusTreePage) (index : Int) (entry : KeyType × ValueType) : BPlusTreePage :=
  { p with leaf_array := fun j => if j = index then entry else p.leaf_array j }

/-- The binary search `std::lower_bound` of the C++ standard library, on the
slots `first, ..., first + len - 1`: `less j` is the outcome of the comparison
object on slot `j` and the searched value.  Each round halves the range, so
`len` rounds of fuel are enough. -/
def lower_bound (less : Int → Bool) : Nat → Int → Int → Int
  | 0, first, _ => first
  | fuel + 1, first, len =>
    if 0 < len then
      let half := len / 2
      let middle := first + half
      if less middle then lower_bound less fuel (middle + 1) (len - half - 1)
      else lower_bound less fuel first half
    else first

/-- The algorithm `std::move_backward` of the C++ standard library: the slots
before `last` are copied to the slots before `d_last`, the last one first; `n`
is the number of slots to copy. -/
def move_backward : Nat → Int → Int → BPlusTreePage → BPlusTreePage
  | 0, _, _, p => p
  | n + 1, last, d_last, p =>
    move_backward n (last - 1) (d_last - 1) (SetEntryAt p (d_last - 1) (p.leaf_array (last - 1)))

/-- Lines 104-111: `FindKeyIndex`. -/
def FindKeyIndex (p : BPlusTreePage) (key : KeyType) (comparator : KeyComparator) : Int :=
  lower_bound (fun j => decide (comparator (p.leaf_array j).1 key < 0)) p.GetSize.toNat 0 p.GetSize

/-- Lines 85-102: `Insert` of the leaf page.  The result is the returned flag
and the page after the call. -/
def Insert (p : BPlusTreePage) (key : KeyType) (value : ValueType) (comparator : KeyComparator) :
    Bool × BPlusTreePage :=
  let index := FindKeyIndex p key comparator
  if index = p.GetSize then
    let p1 := SetEntryAt p index (key, value)
    (true, p1.IncreaseSize 1)
  else if comparator (p.leaf_array index).1 key = 0 then (false, p)
  else
    let p1 := move_backward (p.GetSize - index).toNat p.GetSize (p.GetSize + 1) p
    let p2 := SetEntryAt p1 index (key, value)
    (true, p2.IncreaseSize 1)

end BPlusTreeLeafPage

/-! ## Internal page -/

namespace BPlusTreeInternalPage

/-- Modelled from the spec: the slot accessors of `BPlusTreeInternalPage`
(`b_plus_tree_internal_page.cpp` is not under `src/`): slot `index` holds a
separator key and a child page id. -/
def KeyAt (p : BPlusTreePage) (index : Int) : KeyType := (p.internal_array index).1

def ValueAt (p : BPlusTreePage) (index : Int) : page_id_t := (p.internal_array index).2

def SetKeyAt (p : BPlusTreePage) (index : Int) (key : KeyType) : BPlusTreePage :=
  { p with
    internal_array := fun j => if j = index then (key, (p.internal_array j).2) else p.internal_array j }

def SetValueAt (p : BPlusTreePage) (index : Int) (value : page_id_t) : BPlusTreePage :=
  { p with
    internal_array := fun j => if j = index then ((p.internal_array j).1, value) else p.internal_array j }

/-- Modelled from the spec: `BPlusTreeInternalPage::Init`, missing from `src/`.
Spec 4.2 item 7: a new page is initialised with its page id, parent page id,
max size and page-type tag; the size starts at zero as in the leaf `Init`. -/
def Init (p : BPlusTreePage) (page_id parent_id : page_id_t) (max_size : Int) : BPlusTreePage :=
  let p1 := p.SetPageId page_id
  let p2 := p1.SetParentPageId parent_id
  let p3 := p2.SetMaxSize max_size
  let p4 := p3.SetPageType IndexPageType.INTERNAL_PAGE
  p4.SetSize 0

end BPlusTreeInternalPage

/-! ## Buffer pool -/

/-- Modelled from the spec: the buffer pool (spec section 1: it exposes
`FetchPage`, `NewPage`, `UnpinPage` by page id, with pin-count and dirty-flag
bookkeeping).  `pages id = none` is a page the pool cannot supply (`FetchPage`
returns a null pointer).  `fresh` is the content of a page handed out by
`NewPage`, `next_page_id` the id it hands out next.  `fetch_log` records the
ids passed to `FetchPage`, latest first. -/
structure BufferPoolManager where
  pages : page_id_t → Option BPlusTreePage
  next_page_id : page_id_t
  fresh : BPlusTreePage
  pin_count : page_id_t → Int
  is_dirty : page_id_t → Bool
  fetch_log : List page_id_t

namespace BufferPoolManager

def FetchPage (bpm : BufferPoolManager) (page_id : page_id_t) :
    Option BPlusTreePage × BufferPoolManager :=
  match bpm.pages page_id with
  | none => (none, { bpm with fetch_log := page_id :: bpm.fetch_log })
  | some p =>
    (some p,
      { bpm with
        fetch_log := page_id :: bpm.fetch_log
        pin_count := fun j => if j = page_id then bpm.pin_count j + 1 else bpm.pin_count j })

/-- Allocation of a page: the new id is returned (the source stores it through
the pointer argument) together with the pool holding the pinned new page. -/
def NewPage (bpm : BufferPoolManager) : page_id_t × BufferPoolManager :=
  (bpm.next_page_id,
    { bpm with
      pages := fun j => if j = bpm.next_page_id then some bpm.fresh else bpm.pages j
      next_page_id := bpm.next_page_id + 1
      pin_count := fun j => if j = bpm.next_page_id then 1 else bpm.pin_count j
      is_dirty := fun j => if j = bpm.next_page_id then false else bpm.is_dirty j })

def UnpinPage (bpm : BufferPoolManager) (page_id : page_id_t) (dirty : Bool) : BufferPoolManager :=
  { bpm with
    pin_count := fun j =>
      if j = page_id then (if 0 < bpm.pin_count j then bpm.pin_count j - 1 else bpm.pin_count j)
      else bpm.pin_count j
    is_dirty := fun j => if j = page_id then (bpm.is_dirty j || dirty) else bpm.is_dirty j }

/-- A write through a pointer into the page `page_id`. -/
def WritePage (bpm : BufferPoolManager) (page_id : page_id_t) (p : BPlusTreePage) :
    BufferPoolManager :=
  { bpm with pages := fun j => if j = page_id then some p else bpm.pages j }

end BufferPoolManager

/-! ## The tree (`b_plus_tree.cpp`) -/

/-- Result of running a function of the tree. -/
inductive Ret (α : Type) where
  | returned (a : α)
  | crashed
  | diverged
  deriving DecidableEq, Repr

/-- The data members of `BPlusTree` read by the embedded functions. -/
structure BPlusTree where
  root_page_id : page_id_t
  comparator : KeyComparator
  leaf_max_size : Int
  internal_max_size : Int

namespace BPlusTree

/-- Lines 16-24: the constructor. -/
def new (comparator : KeyComparator) (leaf_max_size internal_max_size : Int) : BPlusTree :=
  { root_page_id := INVALID_PAGE_ID, comparator := comparator,
    leaf_max_size := leaf_max_size, internal_max_size := internal_max_size }

/-- Lines 29-33. -/
def IsEmpty (t : BPlusTree) : Bool := decide (t.root_page_id = INVALID_PAGE_ID)

/-- The loop of lines 76-81 (and 176-181): starting at `i`, advance while the
key of slot `i` compares `-1` with `key`; `n` is the number of slots left up to
`GetSize()`.  The result is the value of `i` after the loop. -/
def scanKeys (comparator : KeyComparator) (keyAt : Int → KeyType) (key : KeyType) :
    Nat → Int → Int
  | 0, i => i
  | n + 1, i => if comparator (keyAt i) key ≠ -1 then i else scanKeys comparator keyAt key n (i + 1)

/-- Lines 72-90. -/
def FindChildPageId (t : BPlusTree) (key : KeyType) (internal_node : BPlusTreePage) : page_id_t :=
  let i := scanKeys t.comparator (BPlusTreeInternalPage.KeyAt internal_node) key
    internal_node.GetSize.toNat 1
  if i = internal_node.GetSize + 1 then BPlusTreeInternalPage.ValueAt internal_node (i - 1)
  else if t.comparator (BPlusTreeInternalPage.KeyAt internal_node i) key = 0 then
    BPlusTreeInternalPage.ValueAt internal_node i
  else BPlusTreeInternalPage.ValueAt internal_node (i - 1)

/-- The loop of lines 47-57: fetch pages from `node_page_id` down until a leaf
page is met.  No page is unpinned. -/
def GetValue.loop (t : BPlusTree) (key : KeyType) :
    Nat → page_id_t → BufferPoolManager → Ret (page_id_t × BPlusTreePage) × BufferPoolManager
  | 0, _, bpm => (Ret.diverged, bpm)
  | fuel + 1, node_page_id, bpm =>
    match bpm.FetchPage node_page_id with
    | (none, bpm1) => (Ret.crashed, bpm1)
    | (some node, bpm1) =>
      if node.IsLeafPage then (Ret.returned (node_page_id, node), bpm1)
      else GetValue.loop t key fuel (t.FindChildPageId key node) bpm1

/-- Lines 42-60: `GetValue`.  The components are the returned flag, the vector
`result` after the call, and the pool after the call. -/
def GetValue (fuel : Nat) (t : BPlusTree) (bpm : BufferPoolManager) (key : KeyType)
    (result : List ValueType) : Ret Bool × List ValueType × BufferPoolManager :=
  match GetValue.loop t key fuel t.root_page_id bpm with
  | (Ret.returned _, bpm1) => (Ret.returned false, result, bpm1)
  | (Ret.crashed, bpm1) => (Ret.crashed, result, bpm1)
  | (Ret.diverged, bpm1) => (Ret.diverged, result, bpm1)

/-- The loop of lines 186-191 (`while (j >= i)`), run on a leaf page: slot `j`
is copied to slot `j + 1`, for `j` going down; `n` is the number of rounds. -/
def shiftLeaf : Nat → Int → BPlusTreePage → BPlusTreePage
  | 0, _, p => p
  | n + 1, j, p =>
    let p1 := BPlusTreeLeafPage.SetKeyAt p (j + 1) (BPlusTreeLeafPage.KeyAt p j)
    let p2 := BPlusTreeLeafPage.SetValueAt p1 (j + 1) (BPlusTreeLeafPage.ValueAt p1 j)
    shiftLeaf n (j - 1) p2

/-- Lines 166-199: `InsertInLeaf`.  Slots are addressed from 1, and the size of
the page is not changed.  The result is the returned flag and the page after the
call. -/
def InsertInLeaf (t : BPlusTree) (key : KeyType) (value : ValueType) (leaf_node : BPlusTreePage) :
    Bool × BPlusTreePage :=
  if leaf_node.GetSize = 0 ∨
      t.comparator (BPlusTreeLeafPage.KeyAt leaf_node leaf_node.GetSize) key = -1 then
    let l1 := BPlusTreeLeafPage.SetKeyAt leaf_node (leaf_node.GetSize + 1) key
    let l2 := BPlusTreeLeafPage.SetValueAt l1 (l1.GetSize + 1) value
    (true, l2)
  else
    let i := scanKeys t.comparator (BPlusTreeLeafPage.KeyAt leaf_node) key leaf_node.GetSize.toNat 1
    if t.comparator (BPlusTreeLeafPage.KeyAt leaf_node i) key = 0 then (false, leaf_node)
    else
      let l1 := shiftLeaf (leaf_node.GetSize - i + 1).toNat leaf_node.GetSize leaf_node
      let l2 := BPlusTreeLeafPage.SetKeyAt l1 i key
      let l3 := BPlusTreeLeafPage.SetValueAt l2 i value
      (true, l3)

/-- The loop of lines 227-238: the descent of `Insert`; a page that is not a
leaf is unpinned before its child is looked up. -/
def Insert.loop (t : BPlusTree) (key : KeyType) :
    Nat → page_id_t → BufferPoolManager → Ret (page_id_t × BPlusTreePage) × BufferPoolManager
  | 0, _, bpm => (Ret.diverged, bpm)
  | fuel + 1, node_page_id, bpm =>
    match bpm.FetchPage node_page_id with
    | (none, bpm1) => (Ret.crashed, bpm1)
    | (some node, bpm1) =>
      if node.IsLeafPage then (Ret.returned (node_page_id, node), bpm1)
      else Insert.loop t key fuel (t.FindChildPageId key node) (bpm1.UnpinPage node_page_id false)

/-- The loop of lines 260-263: slots `i, i+1, ...` of `src` are copied to the
same slots of `dst`; `n` is the number of rounds. -/
def copyLeaf (src : BPlusTreePage) : Nat → Int → BPlusTreePage → BPlusTreePage
  | 0, _, dst => dst
  | n + 1, i, dst =>
    let d1 := BPlusTreeLeafPage.SetKeyAt dst i (BPlusTreeLeafPage.KeyAt src i)
    let d2 := BPlusTreeLeafPage.SetValueAt d1 i (BPlusTreeLeafPage.ValueAt src i)
    copyLeaf src n (i + 1) d2

/-- The loop of lines 269-271: each key of the leaf object is stored into its
own slot. -/
def restoreLeafKeys : Nat → Int → BPlusTreePage → BPlusTreePage
  | 0, _, p => p
  | n + 1, i, p =>
    restoreLeafKeys n (i + 1) (BPlusTreeLeafPage.SetKeyAt p i (BPlusTreeLeafPage.KeyAt p i))

/-- Lines 203-222 of `Insert`: the start of a new tree.  The leaf object that is
initialised (line 212, `_leaf` below) is a `new` object; line 220 only re-points
a local variable, so the page handed out by the pool is left as the pool
supplied it. -/
def Insert.start (t : BPlusTree) (bpm : BufferPoolManager) : BPlusTree × BufferPoolManager :=
  if t.root_page_id = INVALID_PAGE_ID then
    let (id, bpm1) := bpm.NewPage
    let _leaf := BPlusTreeLeafPage.Init zeroPage id (-1) t.leaf_max_size
    let t1 := { t with root_page_id := id }
    (t1, bpm1.UnpinPage t1.root_page_id true)
  else (t, bpm)

/-- Lines 253-279 of `Insert`: the target leaf is full.  `leaf_overflow` is a
`new` object. -/
def Insert.split (t : BPlusTree) (bpm : BufferPoolManager) (key : KeyType) (value : ValueType)
    (node_page_id : page_id_t) (leaf_target : BPlusTreePage) :
    Ret Bool × BPlusTree × BufferPoolManager :=
  let (id, bpm1) := bpm.NewPage
  let t1 := { t with root_page_id := id }
  let o1 := BPlusTreeLeafPage.Init zeroPage id leaf_target.GetParentPageId (t1.leaf_max_size + 1)
  let o2 := copyLeaf leaf_target leaf_target.GetSize.toNat 1 o1
  match t1.InsertInLeaf key value o2 with
  | (false, _) => (Ret.returned false, t1, bpm1)
  | (true, o3) =>
    let h := (o3.GetSize + 1).tdiv 2
    let l1 := leaf_target.SetSize h
    let o4 := restoreLeafKeys (o3.GetSize - h).toNat (h + 1) o3
    let o5 := o4.SetSize (o4.GetSize.tdiv 2)
    let o6 := BPlusTreeLeafPage.SetNextPageId o5 (BPlusTreeLeafPage.GetNextPageId l1)
    let l2 := BPlusTreeLeafPage.SetNextPageId l1 o6.GetPageId
    (Ret.returned true, t1, bpm1.WritePage node_page_id l2)

/-- Lines 201-280: `Insert`.  The components are the returned flag, the tree
object after the call and the pool after the call. -/
def Insert (fuel : Nat) (t : BPlusTree) (bpm : BufferPoolManager) (key : KeyType)
    (value : ValueType) : Ret Bool × BPlusTree × BufferPoolManager :=
  match Insert.start t bpm with
  | (t1, bpm1) =>
    match Insert.loop t1 key fuel t1.root_page_id bpm1 with
    | (Ret.crashed, bpm2) => (Ret.crashed, t1, bpm2)
    | (Ret.diverged, bpm2) => (Ret.diverged, t1, bpm2)
    | (Ret.returned (node_page_id, leaf_target), bpm2) =>
      if leaf_target.GetSize < leaf_target.GetMaxSize then
        match t1.InsertInLeaf key value leaf_target with
        | (false, l) => (Ret.returned false, t1, bpm2.WritePage node_page_id l)
        | (true, l) =>
          (Ret.returned true, t1, (bpm2.WritePage node_page_id l).UnpinPage node_page_id true)
      else Insert.split t1 bpm2 key value node_page_id leaf_target

/-- Lines 292-293: `Remove` has an empty body. -/
def Remove (t : BPlusTree) (bpm : BufferPoolManager) (_key : KeyType) :
    BPlusTree × BufferPoolManager :=
  (t, bpm)

/-- The loop of lines 110-114 (and 129-133): starting at `i`, advance until the
child id of slot `i` equals `target`; `n` is the number of slots left up to
`GetSize()`.  The result is the value of `i` after the loop. -/
def scanValues (valueAt : Int → page_id_t) (target : page_id_t) : Nat → Int → Int
  | 0, i => i
  | n + 1, i => if valueAt i = target then i else scanValues valueAt target n (i + 1)

/-- The loop of lines 116-121 (and 136-141), run on an internal page: slot `j`
is copied to slot `j + 1`, for `j` going down; `n` is the number of rounds. -/
def shiftInternal : Nat → Int → BPlusTreePage → BPlusTreePage
  | 0, _, p => p
  | n + 1, j, p =>
    let p1 := BPlusTreeInternalPage.SetKeyAt p (j + 1) (BPlusTreeInternalPage.KeyAt p j)
    let p2 := BPlusTreeInternalPage.SetValueAt p1 (j + 1) (BPlusTreeInternalPage.ValueAt p1 j)
    shiftInternal n (j - 1) p2

/-- The loop of lines 153-155: each key of the internal object is stored into
its own slot. -/
def restoreInternalKeys : Nat → Int → BPlusTreePage → BPlusTreePage
  | 0, _, p => p
  | n + 1, i, p =>
    restoreInternalKeys n (i + 1)
      (BPlusTreeInternalPage.SetKeyAt p i (BPlusTreeInternalPage.KeyAt p i))

/-- Lines 97-101: the object `new_root` built in the root case of
`InsertInParent`.  It is a `new` object: the source never copies it into the
page allocated at line 96. -/
def InsertInParent.new_root (t : BPlusTree) (id : page_id_t) (node node_extra : BPlusTreePage) :
    BPlusTreePage :=
  let r1 := BPlusTreeInternalPage.Init zeroPage id (-1) t.internal_max_size
  let r2 := BPlusTreeInternalPage.SetValueAt r1 0 node.GetPageId
  BPlusTreeInternalPage.SetValueAt r2 0 node_extra.GetPageId

/-- Lines 109-123 (and 128-143): find the slot, shift the slots to its right,
store the new key and child id. -/
def InsertInParent.place (parent_node : BPlusTreePage) (node : BPlusTreePage) (key : KeyType)
    (node_extra : BPlusTreePage) : BPlusTreePage :=
  let i := scanValues (BPlusTreeInternalPage.ValueAt parent_node) node.GetParentPageId
    (parent_node.GetSize + 1).toNat 0
  let p1 := shiftInternal (parent_node.GetSize - i).toNat parent_node.GetSize parent_node
  let p2 := BPlusTreeInternalPage.SetKeyAt p1 (i + 1) key
  BPlusTreeInternalPage.SetValueAt p2 (i + 1) node_extra.GetPageId

/-- Lines 92-164: `InsertInParent`.  `node` and `node_extra` are read only
through `GetPageId` and `GetParentPageId`, which no statement of the function
changes, so they are passed by value.  In the root case the object `new_root`
(`_obj` below) is built and dropped. -/
def InsertInParent : Nat → BPlusTree → BufferPoolManager → BPlusTreePage → KeyType →
    BPlusTreePage → Ret Bool × BPlusTree × BufferPoolManager
  | 0, t, bpm, _, _, _ => (Ret.diverged, t, bpm)
  | fuel + 1, t, bpm, node, key, node_extra =>
    if node.GetPageId = t.root_page_id then
      let (id, bpm1) := bpm.NewPage
      let t1 := { t with root_page_id := id }
      let _obj := InsertInParent.new_root t1 id node node_extra
      (Ret.returned true, { t1 with root_page_id := id }, bpm1)
    else
      match bpm.FetchPage node.GetParentPageId with
      | (none, bpm1) => (Ret.crashed, t, bpm1)
      | (some parent_node, bpm1) =>
        if parent_node.GetSize < parent_node.GetMaxSize then
          let p1 := InsertInParent.place parent_node node key node_extra
          (Ret.returned true, t, bpm1.WritePage node.GetParentPageId p1)
        else
          let p0 := parent_node.SetSize (parent_node.GetSize + 1)
          let p1 := InsertInParent.place p0 node key node_extra
          let (id, bpm2) := bpm1.NewPage
          let t1 := { t with root_page_id := id }
          let e1 := BPlusTreeInternalPage.Init zeroPage id p1.GetParentPageId (t1.leaf_max_size + 1)
          let h := (p1.GetSize + 1).tdiv 2
          let p2 := p1.SetSize (h - 1)
          let e2 := restoreInternalKeys (e1.GetSize - h).toNat (h + 1) e1
          let e3 := e2.SetSize (e2.GetSize.tdiv 2)
          match InsertInParent fuel t1 (bpm2.WritePage node.GetParentPageId p2) p2
              (BPlusTreeInternalPage.KeyAt p2 h) e3 with
          | (Ret.returned _, t2, bpm3) => (Ret.returned true, t2, bpm3)
          | (Ret.crashed, t2, bpm3) => (Ret.crashed, t2, bpm3)
          | (Ret.diverged, t2, bpm3) => (Ret.diverged, t2, bpm3)

/-- Lines 303-304: `Begin()` returns a default-constructed iterator.  The class
`IndexIterator` is not under `src/`, so the iterator type and its
default-constructed value are parameters. -/
def Begin {IndexIterator : Type} (default_constructed : IndexIterator) (_t : BPlusTree)
    (_bpm : BufferPoolManager) : IndexIterator :=
  default_constructed

/-- Lines 319-320: `End()` returns a default-constructed iterator. -/
def End {IndexIterator : Type} (default_constructed : IndexIterator) (_t : BPlusTree)
    (_bpm : BufferPoolManager) : IndexIterator :=
  default_constructed

/-- Lines 325-326: `GetRootPageId` returns the constant 0. -/
def GetRootPageId (_t : BPlusTree) : page_id_t := 0

end BPlusTree

end bustub

namespace bustub

/-! ## Notions used to state the properties -/

/-- A comparator that is a total order on the keys and answers -1, 0 or 1. -/
structure TotalOrderComparator (comparator : KeyComparator) : Prop where
  range : ∀ a b, comparator a b = -1 ∨ comparator a b = 0 ∨ comparator a b = 1
  eq_iff : ∀ a b, comparator a b = 0 ↔ a = b
  swap : ∀ a b, comparator a b = 1 ↔ comparator b a = -1
  trans : ∀ a b c, comparator a b = -1 → comparator b c = -1 → comparator a c = -1

/-- The keys of the slots `0, ..., n - 1` of a leaf page are strictly increasing
by the comparator. -/
def LeafSorted (comparator : KeyComparator) (p : BPlusTreePage) (n : Int) : Prop :=
  ∀ i j, 0 ≤ i → i < j → j < n →
    comparator (BPlusTreeLeafPage.KeyAt p i) (BPlusTreeLeafPage.KeyAt p j) < 0

/-- The keys of the slots `1, ..., size` of an internal page are strictly
increasing by the comparator. -/
def InternalSorted (comparator : KeyComparator) (p : BPlusTreePage) : Prop :=
  ∀ i j, 1 ≤ i → i < j → j ≤ p.GetSize →
    comparator (BPlusTreeInternalPage.KeyAt p i) (BPlusTreeInternalPage.KeyAt p j) < 0

/-- Slot `i` of an internal page is the child for `key`: `key[i] <= key <
key[i+1]`, where `key[0]` counts as minus infinity and `key[size+1]` as plus
infinity. -/
def CoversKey (comparator : KeyComparator) (p : BPlusTreePage) (key : KeyType) (i : Int) : Prop :=
  0 ≤ i ∧ i ≤ p.GetSize ∧
  (i = 0 ∨ comparator (BPlusTreeInternalPage.KeyAt p i) key ≤ 0) ∧
  (i = p.GetSize ∨ 0 < comparator (BPlusTreeInternalPage.KeyAt p (i + 1)) key)

/-- Index `i` is a lower bound of `key` in a leaf page: the keys below `i` are
less than `key`, the keys from `i` to `size - 1` are not. -/
def IsLowerBound (comparator : KeyComparator) (p : BPlusTreePage) (key : KeyType) (i : Int) :
    Prop :=
  0 ≤ i ∧ i ≤ p.GetSize ∧
  (∀ j, 0 ≤ j → j < i → comparator (BPlusTreeLeafPage.KeyAt p j) key < 0) ∧
  (∀ j, i ≤ j → j < p.GetSize → 0 ≤ comparator (BPlusTreeLeafPage.KeyAt p j) key)

/-- The leaf reached by the descent for `key` that starts at page `id` (the
descent of lines 47-57 and 227-238): `lid` is the page id of the leaf, `leaf`
its contents, `n` the number of non-leaf pages passed on the way. -/
inductive TargetLeaf (t : BPlusTree) (pages : page_id_t → Option BPlusTreePage) (key : KeyType) :
    Nat → page_id_t → page_id_t → BPlusTreePage → Prop where
  | leaf (id : page_id_t) (p : BPlusTreePage) :
      pages id = some p → p.IsLeafPage = true → TargetLeaf t pages key 0 id id p
  | step (n : Nat) (id lid : page_id_t) (p l : BPlusTreePage) :
      pages id = some p → p.IsLeafPage = false →
      TargetLeaf t pages key n (t.FindChildPageId key p) lid l →
      TargetLeaf t pages key (n + 1) id lid l

/-- Successive calls of `Insert`, one per entry of the list, each on the state
the call before it left; the run stops at the first call that does not return. -/
def InsertAll (fuel : Nat) :
    List (KeyType × ValueType) → BPlusTree → BufferPoolManager →
      Ret Unit × BPlusTree × BufferPoolManager
  | [], t, bpm => (Ret.returned (), t, bpm)
  | (key, value) :: rest, t, bpm =>
    match BPlusTree.Insert fuel t bpm key value with
    | (Ret.returned _, t1, bpm1) => InsertAll fuel rest t1 bpm1
    | (Ret.crashed, t1, bpm1) => (Ret.crashed, t1, bpm1)
    | (Ret.diverged, t1, bpm1) => (Ret.diverged, t1, bpm1)

/-- Successive calls of `Remove`, one per key of the list. -/
def RemoveAll : List KeyType → BPlusTree → BufferPoolManager → BPlusTree × BufferPoolManager
  | [], t, bpm => (t, bpm)
  | key :: rest, t, bpm =>
    match BPlusTree.Remove t bpm key with
    | (t1, bpm1) => RemoveAll rest t1 bpm1

/-! ## Concrete pools and pages used to run the embedding -/

/-- A pool as the storage layer sets it up before the index is built: page 0 is
the header page, zero-filled; new pages are zero-filled; ids grow from 1. -/
def bustubPool : BufferPoolManager :=
  { pages := fun j => if j = 0 then some zeroPage else none
    next_page_id := 1
    fresh := zeroPage
    pin_count := fun _ => 0
    is_dirty := fun _ => false
    fetch_log := [] }

/-- An empty leaf page with room for `max_size` entries, as `Init` formats it. -/
def emptyLeaf (page_id : page_id_t) (max_size : Int) : BPlusTreePage :=
  BPlusTreeLeafPage.Init zeroPage page_id INVALID_PAGE_ID max_size

/-- A pool whose new pages already carry the leaf tag and the max size 4 (no
page is stored in it yet; ids grow from 1). -/
def leafPool : BufferPoolManager :=
  { pages := fun _ => none
    next_page_id := 1
    fresh := emptyLeaf 0 4
    pin_count := fun _ => 0
    is_dirty := fun _ => false
    fetch_log := [] }

/-- A full root leaf: page id 1, max size 4, size 4, keys 10, 20, 30, 40 with
values 100, 200, 300, 400 in slots 1 to 4 (the slots `InsertInLeaf` uses). -/
def fullLeaf : BPlusTreePage :=
  { emptyLeaf 1 4 with
    size := 4
    next_page_id := INVALID_PAGE_ID
    leaf_array := fun j =>
      if j = 1 then (10, 100) else if j = 2 then (20, 200) else if j = 3 then (30, 300)
      else if j = 4 then (40, 400) else (0, 0) }

/-- A pool holding the header page 0 and the leaf `fullLeaf` as page 1. -/
def fullLeafPool : BufferPoolManager :=
  { bustubPool with
    pages := fun j => if j = 0 then some zeroPage else if j = 1 then some fullLeaf else none
    next_page_id := 2 }

/-- The tree object whose root is page 1 (leaf max size 4, internal max size 4). -/
def treeAt1 : BPlusTree :=
  { BPlusTree.new GenericComparator 4 4 with root_page_id := 1 }

/-- A root leaf with room: page id 1, max size 4, size 2, keys 10 and 20 with
values 100 and 200 in slots 1 and 2. -/
def roomLeaf : BPlusTreePage :=
  { emptyLeaf 1 4 with
    size := 2
    next_page_id := INVALID_PAGE_ID
    leaf_array := fun j => if j = 1 then (10, 100) else if j = 2 then (20, 200) else (0, 0) }

/-- A pool holding the header page 0 and the leaf `roomLeaf` as page 1. -/
def roomLeafPool : BufferPoolManager :=
  { bustubPool with
    pages := fun j => if j = 0 then some zeroPage else if j = 1 then some roomLeaf else none
    next_page_id := 2 }

/-- The pool that `Insert(1, 100)` on the empty tree leaves when run on
`leafPool`: it holds the first tree, whose root is page 1. -/
def twoTreePool : BufferPoolManager :=
  (BPlusTree.Insert 1 (BPlusTree.new GenericComparator 4 4) leafPool 1 100).2.2

/-- A leaf page in the layout of `BPlusTreeLeafPage::Insert`: page id 1, max
size 4, size 3, keys 10, 20, 30 with values 100, 200, 300 in slots 0 to 2. -/
def sortedLeaf : BPlusTreePage :=
  { emptyLeaf 1 4 with
    size := 3
    next_page_id := INVALID_PAGE_ID
    leaf_array := fun j =>
      if j = 0 then (10, 100) else if j = 1 then (20, 200) else if j = 2 then (30, 300)
      else (0, 0) }

/-- An internal page with room: page id 3, no parent, max size 4, size 1,
children 1 and 2 in slots 0 and 1, separator key 30 in slot 1. -/
def roomParent : BPlusTreePage :=
  { BPlusTreeInternalPage.Init zeroPage 3 INVALID_PAGE_ID 4 with
    size := 1
    internal_array := fun j => if j = 0 then (0, 1) else if j = 1 then (30, 2) else (0, 0) }

/-- A leaf page with the given page id whose parent is page 3. -/
def childLeaf (page_id : page_id_t) : BPlusTreePage :=
  BPlusTreeLeafPage.Init zeroPage page_id 3 4

/-- A pool holding the header page 0, the internal page `roomParent` as page 3,
its children as pages 1 and 2, and a new leaf as page 4. -/
def roomParentPool : BufferPoolManager :=
  { bustubPool with
    pages := fun j =>
      if j = 0 then some zeroPage else if j = 1 then some (childLeaf 1)
      else if j = 2 then some (childLeaf 2) else if j = 3 then some roomParent
      else if j = 4 then some (childLeaf 4) else none
    next_page_id := 5 }

/-- A full internal root: page id 3, no parent, max size 2, size 2, children 1,
2 and 4 in slots 0 to 2, separator keys 30 and 60 in slots 1 and 2. -/
def fullParent : BPlusTreePage :=
  { BPlusTreeInternalPage.Init zeroPage 3 INVALID_PAGE_ID 2 with
    size := 2
    internal_array := fun j =>
      if j = 0 then (0, 1) else if j = 1 then (30, 2) else if j = 2 then (60, 4) else (0, 0) }

/-- A pool holding the header page 0, the internal root `fullParent` as page 3,
its children as pages 1, 2 and 4, and a new leaf as page 5. -/
def fullParentPool : BufferPoolManager :=
  { bustubPool with
    pages := fun j =>
      if j = 0 then some zeroPage else if j = 1 then some (childLeaf 1)
      else if j = 2 then some (childLeaf 2) else if j = 3 then some fullParent
      else if j = 4 then some (childLeaf 4) else if j = 5 then some (childLeaf 5) else none
    next_page_id := 6 }

/-- The tree object whose root is page 3 (leaf max size 4, internal max size 2). -/
def treeAt3 : BPlusTree :=
  { BPlusTree.new GenericComparator 4 2 with root_page_id := 3 }

/-- An internal root over two leaves: page id 3, no parent, max size 4, size 1,
children 1 and 2 in slots 0 and 1, separator key 50 in slot 1. -/
def rootOverLeaves : BPlusTreePage :=
  { BPlusTreeInternalPage.Init zeroPage 3 INVALID_PAGE_ID 4 with
    size := 1
    internal_array := fun j => if j = 0 then (0, 1) else if j = 1 then (50, 2) else (0, 0) }

/-- The full leaf `fullLeaf` as a child of page 3. -/
def fullChild : BPlusTreePage :=
  { fullLeaf with parent_page_id := 3 }

/-- A pool holding the header page 0, the internal root `rootOverLeaves` as page
3, the full leaf `fullChild` as page 1 and an empty leaf as page 2. -/
def fullChildPool : BufferPoolManager :=
  { bustubPool with
    pages := fun j =>
      if j = 0 then some zeroPage else if j = 1 then some fullChild
      else if j = 2 then some (childLeaf 2) else if j = 3 then some rootOverLeaves else none
    next_page_id := 4 }

/-- A pool holding the header page 0, the leaf `fullLeaf` as page 1 and an
empty leaf as page 2 (the sibling handed to `InsertInParent`). -/
def twoLeafPool : BufferPoolManager :=
  { bustubPool with
    pages := fun j =>
      if j = 0 then some zeroPage else if j = 1 then some fullLeaf
      else if j = 2 then some (emptyLeaf 2 4) else none
    next_page_id := 3 }

end bustub

namespace bustub
open BPlusTree

/-! ## Lemmas on the buffer pool -/

@[simp] theorem FetchPage_fst (bpm : BufferPoolManager) (id : page_id_t) :
    (bpm.FetchPage id).1 = bpm.pages id := by
  unfold BufferPoolManager.FetchPage
  cases h : bpm.pages id <;> rfl

@[simp] theorem FetchPage_pages (bpm : BufferPoolManager) (id : page_id_t) :
    (bpm.FetchPage id).2.pages = bpm.pages := by
  unfold BufferPoolManager.FetchPage
  cases h : bpm.pages id <;> rfl

@[simp] theorem FetchPage_next_page_id (bpm : BufferPoolManager) (id : page_id_t) :
    (bpm.FetchPage id).2.next_page_id = bpm.next_page_id := by
  unfold BufferPoolManager.FetchPage
  cases h : bpm.pages id <;> rfl

@[simp] theorem FetchPage_fresh (bpm : BufferPoolManager) (id : page_id_t) :
    (bpm.FetchPage id).2.fresh = bpm.fresh := by
  unfold BufferPoolManager.FetchPage
  cases h : bpm.pages id <;> rfl

@[simp] theorem FetchPage_fetch_log (bpm : BufferPoolManager) (id : page_id_t) :
    (bpm.FetchPage id).2.fetch_log = id :: bpm.fetch_log := by
  unfold BufferPoolManager.FetchPage
  cases h : bpm.pages id <;> rfl

@[simp] theorem UnpinPage_pages (bpm : BufferPoolManager) (id : page_id_t) (d : Bool) :
    (bpm.UnpinPage id d).pages = bpm.pages := rfl

@[simp] theorem UnpinPage_next_page_id (bpm : BufferPoolManager) (id : page_id_t) (d : Bool) :
    (bpm.UnpinPage id d).next_page_id = bpm.next_page_id := rfl

@[simp] theorem UnpinPage_fresh (bpm : BufferPoolManager) (id : page_id_t) (d : Bool) :
    (bpm.UnpinPage id d).fresh = bpm.fresh := rfl

@[simp] theorem UnpinPage_fetch_log (bpm : BufferPoolManager) (id : page_id_t) (d : Bool) :
    (bpm.UnpinPage id d).fetch_log = bpm.fetch_log := rfl

@[simp] theorem WritePage_pages_self (bpm : BufferPoolManager) (id : page_id_t) (p : BPlusTreePage) :
    (bpm.WritePage id p).pages id = some p := by
  simp [BufferPoolManager.WritePage]

theorem WritePage_pages_other (bpm : BufferPoolManager) (id j : page_id_t) (p : BPlusTreePage)
    (h : j ≠ id) : (bpm.WritePage id p).pages j = bpm.pages j := by
  simp [BufferPoolManager.WritePage, h]

@[simp] theorem WritePage_next_page_id (bpm : BufferPoolManager) (id : page_id_t)
    (p : BPlusTreePage) : (bpm.WritePage id p).next_page_id = bpm.next_page_id := rfl

@[simp] theorem NewPage_fst (bpm : BufferPoolManager) : bpm.NewPage.1 = bpm.next_page_id := rfl

@[simp] theorem NewPage_pages_self (bpm : BufferPoolManager) :
    bpm.NewPage.2.pages bpm.next_page_id = some bpm.fresh := by
  simp [BufferPoolManager.NewPage]

theorem NewPage_pages_other (bpm : BufferPoolManager) (j : page_id_t)
    (h : j ≠ bpm.next_page_id) : bpm.NewPage.2.pages j = bpm.pages j := by
  simp [BufferPoolManager.NewPage, h]

@[simp] theorem NewPage_next_page_id (bpm : BufferPoolManager) :
    bpm.NewPage.2.next_page_id = bpm.next_page_id + 1 := rfl

@[simp] theorem NewPage_fresh (bpm : BufferPoolManager) : bpm.NewPage.2.fresh = bpm.fresh := rfl

/-! ## Lemmas on the descent -/

theorem GetValue_loop_succ (t : BPlusTree) (key : KeyType) (fuel : Nat) (id : page_id_t)
    (bpm : BufferPoolManager) :
    GetValue.loop t key (fuel + 1) id bpm =
      match bpm.pages id with
      | none => (Ret.crashed, (bpm.FetchPage id).2)
      | some node =>
        if node.IsLeafPage then (Ret.returned (id, node), (bpm.FetchPage id).2)
        else GetValue.loop t key fuel (t.FindChildPageId key node) (bpm.FetchPage id).2 := by
  cases h : bpm.pages id <;> simp [GetValue.loop, BufferPoolManager.FetchPage, h]

theorem Insert_loop_succ (t : BPlusTree) (key : KeyType) (fuel : Nat) (id : page_id_t)
    (bpm : BufferPoolManager) :
    Insert.loop t key (fuel + 1) id bpm =
      match bpm.pages id with
      | none => (Ret.crashed, (bpm.FetchPage id).2)
      | some node =>
        if node.IsLeafPage then (Ret.returned (id, node), (bpm.FetchPage id).2)
        else Insert.loop t key fuel (t.FindChildPageId key node)
          ((bpm.FetchPage id).2.UnpinPage id false) := by
  cases h : bpm.pages id <;> simp [Insert.loop, BufferPoolManager.FetchPage, h]

theorem GetValue_loop_of_targetLeaf (t : BPlusTree) (key : KeyType) (n : Nat) :
    ∀ (id lid : page_id_t) (l : BPlusTreePage) (bpm : BufferPoolManager),
      TargetLeaf t bpm.pages key n id lid l →
      ∀ fuel, n < fuel → (GetValue.loop t key fuel id bpm).1 = Ret.returned (lid, l) := by
  induction n with
  | zero =>
    intro id lid l bpm h fuel hf
    cases h with
    | leaf _ _ hp hl =>
      obtain ⟨f, rfl⟩ : ∃ f, fuel = f + 1 := ⟨fuel - 1, by omega⟩
      rw [GetValue_loop_succ, hp]
      simp [hl]
  | succ n ih =>
    intro id lid l bpm h fuel hf
    cases h with
    | step _ _ _ p _ hp hl hrest =>
      obtain ⟨f, rfl⟩ : ∃ f, fuel = f + 1 := ⟨fuel - 1, by omega⟩
      rw [GetValue_loop_succ, hp]
      simp only [hl]
      apply ih
      · simpa using hrest
      · omega

/-- The descent of `Insert` changes neither the page contents, nor the id the
pool hands out next, nor the content of new pages. -/
theorem Insert_loop_frame (t : BPlusTree) (key : KeyType) (fuel : Nat) :
    ∀ (id : page_id_t) (bpm : BufferPoolManager),
      (Insert.loop t key fuel id bpm).2.pages = bpm.pages ∧
      (Insert.loop t key fuel id bpm).2.next_page_id = bpm.next_page_id ∧
      (Insert.loop t key fuel id bpm).2.fresh = bpm.fresh := by
  induction fuel with
  | zero => intro id bpm; simp [Insert.loop]
  | succ f ih =>
    intro id bpm
    rw [Insert_loop_succ]
    cases h : bpm.pages id with
    | none => simp
    | some node =>
      by_cases hl : node.IsLeafPage = true
      · simp [hl]
      · simp only [hl]
        have := ih (t.FindChildPageId key node) ((bpm.FetchPage id).2.UnpinPage id false)
        simpa using this

theorem Insert_loop_of_targetLeaf (t : BPlusTree) (key : KeyType) (n : Nat) :
    ∀ (id lid : page_id_t) (l : BPlusTreePage) (bpm : BufferPoolManager),
      TargetLeaf t bpm.pages key n id lid l →
      ∀ fuel, n < fuel → (Insert.loop t key fuel id bpm).1 = Ret.returned (lid, l) := by
  induction n with
  | zero =>
    intro id lid l bpm h fuel hf
    cases h with
    | leaf _ _ hp hl =>
      obtain ⟨f, rfl⟩ : ∃ f, fuel = f + 1 := ⟨fuel - 1, by omega⟩
      rw [Insert_loop_succ, hp]
      simp [hl]
  | succ n ih =>
    intro id lid l bpm h fuel hf
    cases h with
    | step _ _ _ p _ hp hl hrest =>
      obtain ⟨f, rfl⟩ : ∃ f, fuel = f + 1 := ⟨fuel - 1, by omega⟩
      rw [Insert_loop_succ, hp]
      simp only [hl]
      apply ih
      · simpa using hrest
      · omega

/-! ## Lemmas on `InsertInLeaf` and the split -/

theorem shiftLeaf_size (n : Nat) : ∀ (j : Int) (p : BPlusTreePage), (shiftLeaf n j p).size = p.size := by
  induction n with
  | zero => intro j p; rfl
  | succ n ih => intro j p; simp [shiftLeaf, ih, BPlusTreeLeafPage.SetKeyAt, BPlusTreeLeafPage.SetValueAt]

theorem InsertInLeaf_size (t : BPlusTree) (key : KeyType) (value : ValueType) (p : BPlusTreePage) :
    (t.InsertInLeaf key value p).2.size = p.size := by
  unfold InsertInLeaf
  split
  · rfl
  · dsimp only
    split
    · rfl
    · simp [BPlusTreeLeafPage.SetKeyAt, BPlusTreeLeafPage.SetValueAt, shiftLeaf_size]

theorem copyLeaf_header (src : BPlusTreePage) (n : Nat) :
    ∀ (i : Int) (dst : BPlusTreePage),
      (copyLeaf src n i dst).size = dst.size ∧ (copyLeaf src n i dst).page_id = dst.page_id ∧
      (copyLeaf src n i dst).next_page_id = dst.next_page_id := by
  induction n with
  | zero => intro i dst; simp [copyLeaf]
  | succ n ih =>
    intro i dst
    simp [copyLeaf, ih, BPlusTreeLeafPage.SetKeyAt, BPlusTreeLeafPage.SetValueAt]

theorem restoreLeafKeys_header (n : Nat) :
    ∀ (i : Int) (p : BPlusTreePage),
      (restoreLeafKeys n i p).size = p.size ∧ (restoreLeafKeys n i p).page_id = p.page_id := by
  induction n with
  | zero => intro i p; simp [restoreLeafKeys]
  | succ n ih => intro i p; simp [restoreLeafKeys, ih, BPlusTreeLeafPage.SetKeyAt]

theorem shiftLeaf_page_id (n : Nat) :
    ∀ (j : Int) (p : BPlusTreePage), (shiftLeaf n j p).page_id = p.page_id := by
  induction n with
  | zero => intro j p; rfl
  | succ n ih =>
    intro j p
    simp [shiftLeaf, ih, BPlusTreeLeafPage.SetKeyAt, BPlusTreeLeafPage.SetValueAt]

theorem InsertInLeaf_page_id (t : BPlusTree) (key : KeyType) (value : ValueType)
    (p : BPlusTreePage) : (t.InsertInLeaf key value p).2.page_id = p.page_id := by
  unfold InsertInLeaf
  split
  · rfl
  · dsimp only
    split
    · rfl
    · simp [BPlusTreeLeafPage.SetKeyAt, BPlusTreeLeafPage.SetValueAt, shiftLeaf_page_id]

theorem InsertInLeaf_of_size_zero (t : BPlusTree) (key : KeyType) (value : ValueType)
    (p : BPlusTreePage) (h : p.size = 0) : (t.InsertInLeaf key value p).1 = true := by
  unfold InsertInLeaf
  simp [BPlusTreePage.GetSize, h]

/-- The split of lines 253-279, worked out: the object `leaf_overflow` has size
0 after `Init`, so `InsertInLeaf` on it takes its first branch, `h` is 0, and
the target leaf is left with size 0 and the new page id as its next page. -/
theorem Insert_split_eq (t : BPlusTree) (bpm : BufferPoolManager) (key : KeyType)
    (value : ValueType) (id : page_id_t) (l : BPlusTreePage) :
    Insert.split t bpm key value id l =
      (Ret.returned true, { t with root_page_id := bpm.next_page_id },
        bpm.NewPage.2.WritePage id { l with size := 0, next_page_id := bpm.next_page_id }) := by
  unfold Insert.split
  simp only [NewPage_fst]
  obtain ⟨hs, hid, -⟩ := copyLeaf_header l l.GetSize.toNat 1
    (BPlusTreeLeafPage.Init zeroPage bpm.next_page_id l.GetParentPageId (t.leaf_max_size + 1))
  generalize copyLeaf l l.GetSize.toNat 1
    (BPlusTreeLeafPage.Init zeroPage bpm.next_page_id l.GetParentPageId (t.leaf_max_size + 1)) = o
    at hs hid
  have hs0 : o.size = 0 := by rw [hs]; rfl
  have hid0 : o.page_id = bpm.next_page_id := by rw [hid]; rfl
  have h1 := InsertInLeaf_of_size_zero { t with root_page_id := bpm.next_page_id } key value o hs0
  have h2 := InsertInLeaf_size { t with root_page_id := bpm.next_page_id } key value o
  have h3 := InsertInLeaf_page_id { t with root_page_id := bpm.next_page_id } key value o
  generalize InsertInLeaf { t with root_page_id := bpm.next_page_id } key value o = r at h1 h2 h3
  obtain ⟨b, o3⟩ := r
  simp only at h1 h2 h3
  subst h1
  rw [hs0] at h2
  rw [hid0] at h3
  have hh : (o3.GetSize + 1).tdiv 2 = 0 := by
    simp only [BPlusTreePage.GetSize, h2]
    decide
  simp only [hh]
  have h4 := (restoreLeafKeys_header (o3.GetSize - 0).toNat (0 + 1) o3).2
  rw [h3] at h4
  simp only [BPlusTreeLeafPage.SetNextPageId, BPlusTreeLeafPage.GetNextPageId,
    BPlusTreePage.SetSize, BPlusTreePage.GetPageId, h4]

/-- The whole of `Insert` when the tree is not empty and the descent reaches the
leaf `l` stored as page `lid`. -/
theorem Insert_of_targetLeaf (t : BPlusTree) (bpm : BufferPoolManager) (key : KeyType)
    (value : ValueType) (n : Nat) (lid : page_id_t) (l : BPlusTreePage)
    (hroot : t.root_page_id ≠ INVALID_PAGE_ID)
    (h : TargetLeaf t bpm.pages key n t.root_page_id lid l) (fuel : Nat) (hf : n < fuel) :
    ∃ bpm2 : BufferPoolManager,
      bpm2.pages = bpm.pages ∧ bpm2.next_page_id = bpm.next_page_id ∧ bpm2.fresh = bpm.fresh ∧
      BPlusTree.Insert fuel t bpm key value =
        if l.GetSize < l.GetMaxSize then
          match t.InsertInLeaf key value l with
          | (false, l') => (Ret.returned false, t, bpm2.WritePage lid l')
          | (true, l') => (Ret.returned true, t, (bpm2.WritePage lid l').UnpinPage lid true)
        else Insert.split t bpm2 key value lid l := by
  have h1 := Insert_loop_of_targetLeaf t key n t.root_page_id lid l bpm h fuel hf
  have h2 := Insert_loop_frame t key fuel t.root_page_id bpm
  refine ⟨(Insert.loop t key fuel t.root_page_id bpm).2, h2.1, h2.2.1, h2.2.2, ?_⟩
  unfold BPlusTree.Insert Insert.start
  simp only [hroot, if_false]
  generalize Insert.loop t key fuel t.root_page_id bpm = r at h1
  obtain ⟨o, b⟩ := r
  simp only at h1
  subst h1
  rfl

theorem Insert_of_full_targetLeaf (t : BPlusTree) (bpm : BufferPoolManager) (key : KeyType)
    (value : ValueType) (n : Nat) (lid : page_id_t) (l : BPlusTreePage)
    (hroot : t.root_page_id ≠ INVALID_PAGE_ID)
    (h : TargetLeaf t bpm.pages key n t.root_page_id lid l)
    (hfull : ¬ l.GetSize < l.GetMaxSize) (fuel : Nat) (hf : n < fuel) :
    (BPlusTree.Insert fuel t bpm key value).1 = Ret.returned true ∧
    (BPlusTree.Insert fuel t bpm key value).2.1.root_page_id = bpm.next_page_id ∧
    (BPlusTree.Insert fuel t bpm key value).2.2.pages lid =
      some { l with size := 0, next_page_id := bpm.next_page_id } ∧
    (lid ≠ bpm.next_page_id →
      (BPlusTree.Insert fuel t bpm key value).2.2.pages bpm.next_page_id = some bpm.fresh) := by
  obtain ⟨bpm2, hp, hn, hfr, heq⟩ := Insert_of_targetLeaf t bpm key value n lid l hroot h fuel hf
  rw [heq, if_neg hfull, Insert_split_eq, hn]
  refine ⟨rfl, rfl, by simp, ?_⟩
  intro hne
  have hne2 : bpm.next_page_id ≠ lid := fun e => hne e.symm
  simp [BufferPoolManager.WritePage, BufferPoolManager.NewPage, hne2, hn, hfr]

theorem FindChildPageId_zeroPage (t : BPlusTree) (key : KeyType) :
    t.FindChildPageId key zeroPage = 0 := by
  simp [FindChildPageId, zeroPage, BPlusTreePage.GetSize, scanKeys, BPlusTreeInternalPage.ValueAt]

/-- A descent that arrives at page 0 when page 0 is zero-filled stays there: the
page is not a leaf and its child slot 0 holds 0. -/
theorem Insert_loop_diverges_at_zero_page (t : BPlusTree) (key : KeyType) (fuel : Nat) :
    ∀ bpm : BufferPoolManager, bpm.pages 0 = some zeroPage →
      (Insert.loop t key fuel 0 bpm).1 = Ret.diverged := by
  induction fuel with
  | zero => intro bpm _; rfl
  | succ f ih =>
    intro bpm h
    rw [Insert_loop_succ, h]
    have hz : zeroPage.IsLeafPage = false := rfl
    simp only [hz, FindChildPageId_zeroPage]
    exact ih _ (by simpa using h)

theorem RemoveAll_eq (keys : List KeyType) :
    ∀ (t : BPlusTree) (bpm : BufferPoolManager), RemoveAll keys t bpm = (t, bpm) := by
  induction keys with
  | nil => intro t bpm; rfl
  | cons k rest ih => intro t bpm; simp [RemoveAll, Remove, ih]

/-- After `Insert`, whatever its outcome, the root page id is an id handed out
by the pool or the root id from before the call. -/
theorem Insert_root_nonneg (fuel : Nat) (t : BPlusTree) (bpm : BufferPoolManager) (key : KeyType)
    (value : ValueType) (hn : 0 ≤ bpm.next_page_id)
    (hr : t.root_page_id = INVALID_PAGE_ID ∨ 0 ≤ t.root_page_id) :
    0 ≤ (BPlusTree.Insert fuel t bpm key value).2.1.root_page_id ∧
    0 ≤ (BPlusTree.Insert fuel t bpm key value).2.2.next_page_id := by
  have hstart : 0 ≤ (Insert.start t bpm).1.root_page_id ∧
      0 ≤ (Insert.start t bpm).2.next_page_id := by
    unfold Insert.start
    by_cases he : t.root_page_id = INVALID_PAGE_ID
    · simp only [he, if_true]
      exact ⟨hn, by show 0 ≤ bpm.next_page_id + 1; linarith⟩
    · simp only [he, if_false]
      rcases hr with hr | hr
      · exact absurd hr he
      · exact ⟨hr, hn⟩
  unfold BPlusTree.Insert
  generalize Insert.start t bpm = s at hstart
  obtain ⟨t1, bpm1⟩ := s
  simp only at hstart ⊢
  have hfr := (Insert_loop_frame t1 key fuel t1.root_page_id bpm1).2.1
  generalize Insert.loop t1 key fuel t1.root_page_id bpm1 = r at hfr
  obtain ⟨o, bpm2⟩ := r
  simp only at hfr
  cases o with
  | crashed => exact ⟨hstart.1, by simpa [hfr] using hstart.2⟩
  | diverged => exact ⟨hstart.1, by simpa [hfr] using hstart.2⟩
  | returned a =>
    obtain ⟨node_page_id, leaf_target⟩ := a
    simp only
    split
    · split <;> exact ⟨hstart.1, by simpa [hfr] using hstart.2⟩
    · rw [Insert_split_eq]
      simp only [hfr, WritePage_next_page_id, NewPage_next_page_id]
      have h2 := hstart.2
      exact ⟨h2, by linarith⟩

theorem InsertAll_root_nonneg (fuel : Nat) (kvs : List (KeyType × ValueType)) :
    ∀ (t : BPlusTree) (bpm : BufferPoolManager), kvs ≠ [] → 0 ≤ bpm.next_page_id →
      (t.root_page_id = INVALID_PAGE_ID ∨ 0 ≤ t.root_page_id) →
      0 ≤ (InsertAll fuel kvs t bpm).2.1.root_page_id := by
  induction kvs with
  | nil => intro t bpm h; exact absurd rfl h
  | cons kv rest ih =>
    intro t bpm _ hn hr
    obtain ⟨key, value⟩ := kv
    have h1 := Insert_root_nonneg fuel t bpm key value hn hr
    unfold InsertAll
    generalize BPlusTree.Insert fuel t bpm key value = r at h1
    obtain ⟨o, t1, bpm1⟩ := r
    simp only at h1
    cases o with
    | crashed => exact h1.1
    | diverged => exact h1.1
    | returned b =>
      simp only
      cases rest with
      | nil => exact h1.1
      | cons kv2 rest2 => exact ih t1 bpm1 (by simp) h1.2 (Or.inr h1.1)

/-! ## The claims -/

/-- C1 (round trip), which the code breaks: `GetValue` never reports a key as
found and never writes to `result`, in any state (its only return statement is
`return false`, line 59).  Run on the tree built by `Insert(1, 100)` on the empty
tree: `Insert` returns true, and `GetValue(1)` then returns false.  Run on the
tree whose root leaf holds the keys 10 and 20: `GetValue(10)` returns false. -/
theorem GetValue_never_reports_found :
    (∀ (fuel : Nat) (t : BPlusTree) (bpm : BufferPoolManager) (key : KeyType)
        (result : List ValueType),
      (GetValue fuel t bpm key result).1 ≠ Ret.returned true ∧
      (GetValue fuel t bpm key result).2.1 = result) ∧
    (BPlusTree.Insert 1 (BPlusTree.new GenericComparator 4 4) leafPool 1 100).1
      = Ret.returned true ∧
    (GetValue 1 (BPlusTree.Insert 1 (BPlusTree.new GenericComparator 4 4) leafPool 1 100).2.1
      (BPlusTree.Insert 1 (BPlusTree.new GenericComparator 4 4) leafPool 1 100).2.2 1 []).1
      = Ret.returned false ∧
    BPlusTreeLeafPage.KeyAt roomLeaf 1 = 10 ∧
    (GetValue 1 treeAt1 roomLeafPool 10 []).1 = Ret.returned false ∧
    (GetValue 1 treeAt1 roomLeafPool 10 []).2.1 = [] := by
  refine ⟨?_, by decide, by decide, by decide, by decide, by decide⟩
  intro fuel t bpm key result
  unfold GetValue
  generalize GetValue.loop t key fuel t.root_page_id bpm = r
  obtain ⟨o, b⟩ := r
  cases o <;> simp

/-- C2 (no duplicates), which the code breaks when the leaf holding the key is
full.  The root leaf `fullLeaf` holds key 20 and is full; `Insert(20, value)`
returns true instead of false, `root_page_id_` becomes 2 (the page allocated at
line 253) instead of staying 1, and the size of page 1 drops from 4 to 0. -/
theorem Insert_duplicate_into_full_leaf (fuel : Nat) (value : ValueType) :
    fullLeafPool.pages treeAt1.root_page_id = some fullLeaf ∧
    fullLeaf.IsLeafPage = true ∧ fullLeaf.GetSize = fullLeaf.GetMaxSize ∧
    BPlusTreeLeafPage.KeyAt fullLeaf 2 = 20 ∧
    (BPlusTree.Insert (fuel + 1) treeAt1 fullLeafPool 20 value).1 = Ret.returned true ∧
    (BPlusTree.Insert (fuel + 1) treeAt1 fullLeafPool 20 value).2.1.root_page_id = 2 ∧
    ((BPlusTree.Insert (fuel + 1) treeAt1 fullLeafPool 20 value).2.2.pages 1).map
      BPlusTreePage.GetSize = some 0 := by
  have h := Insert_of_full_targetLeaf treeAt1 fullLeafPool 20 value 0 1 fullLeaf (by decide)
    (TargetLeaf.leaf 1 fullLeaf rfl rfl) (by decide) (fuel + 1) (by omega)
  refine ⟨rfl, rfl, rfl, rfl, h.1, h.2.1, ?_⟩
  rw [h.2.2.1]
  rfl

/-- C3 (insert with room), which the code breaks: when the target leaf has
`size < max_size`, the page stored for the leaf after `Insert` is the page that
`InsertInLeaf` produced, and its size is the size from before the call, not one
larger (`InsertInLeaf` never changes the size). -/
theorem Insert_with_room_keeps_size (t : BPlusTree) (bpm : BufferPoolManager) (key : KeyType)
    (value : ValueType) (n : Nat) (lid : page_id_t) (l : BPlusTreePage)
    (hroot : t.root_page_id ≠ INVALID_PAGE_ID)
    (h : TargetLeaf t bpm.pages key n t.root_page_id lid l)
    (hroom : l.GetSize < l.GetMaxSize) (fuel : Nat) (hf : n < fuel) :
    (BPlusTree.Insert fuel t bpm key value).2.2.pages lid = some (t.InsertInLeaf key value l).2 ∧
    (t.InsertInLeaf key value l).2.GetSize = l.GetSize := by
  obtain ⟨bpm2, -, -, -, heq⟩ := Insert_of_targetLeaf t bpm key value n lid l hroot h fuel hf
  refine ⟨?_, InsertInLeaf_size t key value l⟩
  rw [heq, if_pos hroom]
  generalize t.InsertInLeaf key value l = r
  obtain ⟨b, l'⟩ := r
  cases b <;> simp [BufferPoolManager.WritePage, BufferPoolManager.UnpinPage]

/-- Witness for C3: the root leaf holds keys 10 and 20 (size 2, max size 4);
`Insert(15, 150)` returns true and the leaf still has size 2. -/
theorem Insert_with_room_keeps_size_witness :
    treeAt1.root_page_id ≠ INVALID_PAGE_ID ∧
    TargetLeaf treeAt1 roomLeafPool.pages 15 0 treeAt1.root_page_id 1 roomLeaf ∧
    roomLeaf.GetSize < roomLeaf.GetMaxSize ∧
    (BPlusTree.Insert 1 treeAt1 roomLeafPool 15 150).1 = Ret.returned true ∧
    ((BPlusTree.Insert 1 treeAt1 roomLeafPool 15 150).2.2.pages 1).map BPlusTreePage.GetSize
      = some 2 :=
  ⟨by decide, TargetLeaf.leaf 1 roomLeaf rfl rfl, by decide, by decide, by
    have h := Insert_with_room_keeps_size treeAt1 roomLeafPool 15 150 0 1 roomLeaf (by decide)
      (TargetLeaf.leaf 1 roomLeaf rfl rfl) (by decide) 1 (by decide)
    rw [h.1]
    exact congrArg some h.2⟩

/-- C4 (first insert), which the code breaks: the page allocated for the root is
never formatted, since `Init` runs on an object that is not the page.  On a pool
with zero-filled pages `Insert` on the empty tree does not return, whatever the
fuel: the new root page 1 is not a leaf and its child slot 0 leads to page 0,
which leads to itself.  On a pool whose new pages are empty leaves already,
`Insert(5, 50)` returns true and the root leaf has size 0, the entry lying in
slot 1. -/
theorem Insert_into_empty_tree (fuel : Nat) (comparator : KeyComparator)
    (leaf_max_size internal_max_size : Int) (key : KeyType) (value : ValueType) :
    (BPlusTree.Insert fuel (BPlusTree.new comparator leaf_max_size internal_max_size)
      bustubPool key value).1 = Ret.diverged ∧
    (BPlusTree.Insert fuel (BPlusTree.new comparator leaf_max_size internal_max_size)
      bustubPool key value).2.1.root_page_id = 1 ∧
    (BPlusTree.Insert fuel (BPlusTree.new comparator leaf_max_size internal_max_size)
      bustubPool key value).2.2.pages 1 = some zeroPage ∧
    (BPlusTree.Insert 1 (BPlusTree.new GenericComparator 4 4) leafPool 5 50).1
      = Ret.returned true ∧
    ((BPlusTree.Insert 1 (BPlusTree.new GenericComparator 4 4) leafPool 5 50).2.2.pages 1).map
      BPlusTreePage.GetSize = some 0 ∧
    ((BPlusTree.Insert 1 (BPlusTree.new GenericComparator 4 4) leafPool 5 50).2.2.pages 1).map
      (fun p => p.leaf_array 1) = some (5, 50) := by
  refine ⟨?_, ?_, ?_, by decide, by decide, by decide⟩
  all_goals
    unfold BPlusTree.Insert
    have hs : Insert.start (BPlusTree.new comparator leaf_max_size internal_max_size) bustubPool =
        ({ BPlusTree.new comparator leaf_max_size internal_max_size with root_page_id := 1 },
          bustubPool.NewPage.2.UnpinPage 1 true) := rfl
    rw [hs]
    simp only
    have hfr := (Insert_loop_frame
      { BPlusTree.new comparator leaf_max_size internal_max_size with root_page_id := 1 } key fuel 1
      (bustubPool.NewPage.2.UnpinPage 1 true)).1
    have hd : (Insert.loop
        { BPlusTree.new comparator leaf_max_size internal_max_size with root_page_id := 1 } key fuel 1
        (bustubPool.NewPage.2.UnpinPage 1 true)).1 = Ret.diverged := by
      cases fuel with
      | zero => rfl
      | succ f =>
        rw [Insert_loop_succ]
        have hp : (bustubPool.NewPage.2.UnpinPage 1 true).pages 1 = some zeroPage := rfl
        have hz : zeroPage.IsLeafPage = false := rfl
        rw [hp]
        simp only [hz, FindChildPageId_zeroPage]
        exact Insert_loop_diverges_at_zero_page _ key f _ rfl
    generalize Insert.loop
      { BPlusTree.new comparator leaf_max_size internal_max_size with root_page_id := 1 } key fuel 1
      (bustubPool.NewPage.2.UnpinPage 1 true) = r at hfr hd
    obtain ⟨o, b⟩ := r
    simp only at hfr hd
    subst hd
    simp only [hfr] <;> rfl

/-- C5 (leaf split distribution), which the code breaks: when the target leaf
L1 is full, `Insert` returns true, L1 is left with size 0 (its slots untouched)
and the newly allocated page still holds what the pool supplied; no entry is
moved into it (the entries are copied into an object that is dropped). -/
theorem Insert_split_distribution (t : BPlusTree) (bpm : BufferPoolManager) (key : KeyType)
    (value : ValueType) (n : Nat) (lid : page_id_t) (l : BPlusTreePage)
    (hroot : t.root_page_id ≠ INVALID_PAGE_ID)
    (h : TargetLeaf t bpm.pages key n t.root_page_id lid l)
    (hfull : l.GetSize = l.GetMaxSize) (hnew : lid ≠ bpm.next_page_id)
    (fuel : Nat) (hf : n < fuel) :
    (BPlusTree.Insert fuel t bpm key value).1 = Ret.returned true ∧
    (∃ l1, (BPlusTree.Insert fuel t bpm key value).2.2.pages lid = some l1 ∧
      l1.GetSize = 0 ∧ l1.leaf_array = l.leaf_array) ∧
    (BPlusTree.Insert fuel t bpm key value).2.2.pages bpm.next_page_id = some bpm.fresh := by
  have hx := Insert_of_full_targetLeaf t bpm key value n lid l hroot h
    (by rw [hfull]; exact lt_irrefl _) fuel hf
  exact ⟨hx.1, ⟨_, hx.2.2.1, rfl, rfl⟩, hx.2.2.2 hnew⟩

/-- Witness for C5: max size 4, the full root leaf holds 10, 20, 30, 40 and key
25 is inserted.  Afterwards page 1 has size 0 (the claim: 3) and the new page 2
is zero-filled, of size 0 and without the leaf tag (the claim: a leaf of size
2). -/
theorem Insert_split_distribution_witness :
    treeAt1.root_page_id ≠ INVALID_PAGE_ID ∧
    TargetLeaf treeAt1 fullLeafPool.pages 25 0 treeAt1.root_page_id 1 fullLeaf ∧
    fullLeaf.GetSize = fullLeaf.GetMaxSize ∧ fullLeaf.GetMaxSize = 4 ∧
    (1 : page_id_t) ≠ fullLeafPool.next_page_id ∧
    (BPlusTree.Insert 1 treeAt1 fullLeafPool 25 250).1 = Ret.returned true ∧
    (∃ l1, (BPlusTree.Insert 1 treeAt1 fullLeafPool 25 250).2.2.pages 1 = some l1 ∧
      l1.GetSize = 0 ∧ l1.leaf_array = fullLeaf.leaf_array) ∧
    (BPlusTree.Insert 1 treeAt1 fullLeafPool 25 250).2.2.pages 2 = some zeroPage ∧
    zeroPage.GetSize = 0 ∧ zeroPage.IsLeafPage = false :=
  have hx := Insert_split_distribution treeAt1 fullLeafPool 25 250 0 1 fullLeaf (by decide)
    (TargetLeaf.leaf 1 fullLeaf rfl rfl) rfl (by decide) 1 (by decide)
  ⟨by decide, TargetLeaf.leaf 1 fullLeaf rfl rfl, rfl, rfl, by decide, hx.1, hx.2.1, hx.2.2,
    rfl, rfl⟩

/-- C6 (root growth), which the code breaks.  When `node` is the root,
`InsertInParent` returns true and `root_page_id_` becomes the id of the page
just allocated, but that page is left as the pool supplied it and every other
page is as before: no key and no child id is written to it.  The object
`new_root` that is built instead holds `node_extra`'s page id in child slot 0
(the second `SetValueAt(0, ...)` overwrites the first) and is given no key. -/
theorem InsertInParent_root_case (fuel : Nat) (t : BPlusTree) (bpm : BufferPoolManager)
    (node : BPlusTreePage) (key : KeyType) (node_extra : BPlusTreePage)
    (h : node.GetPageId = t.root_page_id) :
    (InsertInParent (fuel + 1) t bpm node key node_extra).1 = Ret.returned true ∧
    (InsertInParent (fuel + 1) t bpm node key node_extra).2.1.root_page_id = bpm.next_page_id ∧
    (InsertInParent (fuel + 1) t bpm node key node_extra).2.2.pages bpm.next_page_id
      = some bpm.fresh ∧
    (∀ j, j ≠ bpm.next_page_id →
      (InsertInParent (fuel + 1) t bpm node key node_extra).2.2.pages j = bpm.pages j) ∧
    BPlusTreeInternalPage.ValueAt
      (InsertInParent.new_root { t with root_page_id := bpm.next_page_id } bpm.next_page_id
        node node_extra) 0 = node_extra.GetPageId := by
  have he : InsertInParent (fuel + 1) t bpm node key node_extra =
      (Ret.returned true, { t with root_page_id := bpm.next_page_id }, bpm.NewPage.2) := by
    rw [InsertInParent]
    simp only [h, if_true]
    rfl
  rw [he]
  refine ⟨rfl, rfl, NewPage_pages_self bpm, fun j hj => NewPage_pages_other bpm j hj, ?_⟩
  simp [InsertInParent.new_root, BPlusTreeInternalPage.ValueAt, BPlusTreeInternalPage.SetValueAt]

/-- Witness for C6: the root is the leaf page 1, its new sibling is page 2, the
separator is 30 and the pool hands out zero-filled pages.  Afterwards
`root_page_id_` is 3 and page 3 is zero-filled: size 0 (no separator key), no
internal tag, child slot 0 holding 0 and not 1, key slot 1 holding 0 and not
30. -/
theorem InsertInParent_root_case_witness :
    fullLeaf.GetPageId = treeAt1.root_page_id ∧
    (InsertInParent 1 treeAt1 twoLeafPool fullLeaf 30 (emptyLeaf 2 4)).1 = Ret.returned true ∧
    (InsertInParent 1 treeAt1 twoLeafPool fullLeaf 30 (emptyLeaf 2 4)).2.1.root_page_id = 3 ∧
    (InsertInParent 1 treeAt1 twoLeafPool fullLeaf 30 (emptyLeaf 2 4)).2.2.pages 3
      = some zeroPage ∧
    zeroPage.GetSize = 0 ∧ zeroPage.page_type = IndexPageType.INVALID_INDEX_PAGE ∧
    BPlusTreeInternalPage.ValueAt zeroPage 0 = 0 ∧ BPlusTreeInternalPage.KeyAt zeroPage 1 = 0 ∧
    BPlusTreeInternalPage.ValueAt
      (InsertInParent.new_root { treeAt1 with root_page_id := 3 } 3 fullLeaf (emptyLeaf 2 4)) 0
      = 2 :=
  have hx := InsertInParent_root_case 0 treeAt1 twoLeafPool fullLeaf 30 (emptyLeaf 2 4) rfl
  ⟨rfl, hx.1, hx.2.1, hx.2.2.1, rfl, rfl, rfl, rfl, hx.2.2.2.2⟩

/-- Where the descent for `key` from the root reaches a leaf after passing `n`
pages, `GetValue` with any fuel above `n` returns false and leaves `result` as
it was. -/
theorem GetValue_absent_key (t : BPlusTree) (bpm : BufferPoolManager) (key : KeyType)
    (result : List ValueType) (n : Nat) (lid : page_id_t) (l : BPlusTreePage)
    (h : TargetLeaf t bpm.pages key n t.root_page_id lid l) (fuel : Nat) (hf : n < fuel) :
    (GetValue fuel t bpm key result).1 = Ret.returned false ∧
    (GetValue fuel t bpm key result).2.1 = result := by
  have h1 := GetValue_loop_of_targetLeaf t key n t.root_page_id lid l bpm h fuel hf
  unfold GetValue
  generalize GetValue.loop t key fuel t.root_page_id bpm = r at h1
  obtain ⟨o, b⟩ := r
  simp only at h1
  subst h1
  exact ⟨rfl, rfl⟩

/-- An instance of `GetValue_absent_key`: the tree built by `Insert(1, 100)` on
the empty tree, on a pool whose new pages are empty leaves; key 2 was never
inserted, and `GetValue(2)` returns false with `result` still empty. -/
theorem GetValue_absent_key_witness :
    (BPlusTree.Insert 1 (BPlusTree.new GenericComparator 4 4) leafPool 1 100).1
      = Ret.returned true ∧
    (∃ l, TargetLeaf (BPlusTree.Insert 1 (BPlusTree.new GenericComparator 4 4) leafPool 1 100).2.1
      (BPlusTree.Insert 1 (BPlusTree.new GenericComparator 4 4) leafPool 1 100).2.2.pages 2 0
      (BPlusTree.Insert 1 (BPlusTree.new GenericComparator 4 4) leafPool 1 100).2.1.root_page_id
      1 l) ∧
    (GetValue 1 (BPlusTree.Insert 1 (BPlusTree.new GenericComparator 4 4) leafPool 1 100).2.1
      (BPlusTree.Insert 1 (BPlusTree.new GenericComparator 4 4) leafPool 1 100).2.2 2 []).1
      = Ret.returned false ∧
    (GetValue 1 (BPlusTree.Insert 1 (BPlusTree.new GenericComparator 4 4) leafPool 1 100).2.1
      (BPlusTree.Insert 1 (BPlusTree.new GenericComparator 4 4) leafPool 1 100).2.2 2 []).2.1
      = [] :=
  have ht : TargetLeaf (BPlusTree.Insert 1 (BPlusTree.new GenericComparator 4 4) leafPool 1 100).2.1
      (BPlusTree.Insert 1 (BPlusTree.new GenericComparator 4 4) leafPool 1 100).2.2.pages 2 0
      (BPlusTree.Insert 1 (BPlusTree.new GenericComparator 4 4) leafPool 1 100).2.1.root_page_id
      1 _ := TargetLeaf.leaf 1 _ rfl rfl
  have hx := GetValue_absent_key _ _ 2 [] 0 1 _ ht 1 (by decide)
  ⟨by decide, ⟨_, ht⟩, hx.1, hx.2⟩

/-- A descent of `GetValue` that arrives at page 0 when page 0 is zero-filled
stays there. -/
theorem GetValue_loop_diverges_at_zero_page (t : BPlusTree) (key : KeyType) (fuel : Nat) :
    ∀ bpm : BufferPoolManager, bpm.pages 0 = some zeroPage →
      (GetValue.loop t key fuel 0 bpm).1 = Ret.diverged := by
  induction fuel with
  | zero => intro bpm _; rfl
  | succ f ih =>
    intro bpm h
    rw [GetValue_loop_succ, h]
    have hz : zeroPage.IsLeafPage = false := rfl
    simp only [hz, FindChildPageId_zeroPage]
    exact ih _ (by simpa using h)

/-- `Insert` on a newly constructed tree, on the pool with zero-filled pages:
the call does not return, `root_page_id_` is left at 1 and the pages are those
the allocation of line 205 left. -/
theorem Insert_on_bustubPool (fuel : Nat) (comparator : KeyComparator)
    (leaf_max_size internal_max_size : Int) (key : KeyType) (value : ValueType) :
    (BPlusTree.Insert fuel (BPlusTree.new comparator leaf_max_size internal_max_size)
      bustubPool key value).1 = Ret.diverged ∧
    (BPlusTree.Insert fuel (BPlusTree.new comparator leaf_max_size internal_max_size)
      bustubPool key value).2.1.root_page_id = 1 ∧
    (BPlusTree.Insert fuel (BPlusTree.new comparator leaf_max_size internal_max_size)
      bustubPool key value).2.2.pages = bustubPool.NewPage.2.pages := by
  unfold BPlusTree.Insert
  have hs : Insert.start (BPlusTree.new comparator leaf_max_size internal_max_size) bustubPool =
      ({ BPlusTree.new comparator leaf_max_size internal_max_size with root_page_id := 1 },
        bustubPool.NewPage.2.UnpinPage 1 true) := rfl
  rw [hs]
  simp only
  have hfr := (Insert_loop_frame
    { BPlusTree.new comparator leaf_max_size internal_max_size with root_page_id := 1 } key fuel 1
    (bustubPool.NewPage.2.UnpinPage 1 true)).1
  have hd : (Insert.loop
      { BPlusTree.new comparator leaf_max_size internal_max_size with root_page_id := 1 } key fuel 1
      (bustubPool.NewPage.2.UnpinPage 1 true)).1 = Ret.diverged := by
    cases fuel with
    | zero => rfl
    | succ f =>
      rw [Insert_loop_succ]
      have hp : (bustubPool.NewPage.2.UnpinPage 1 true).pages 1 = some zeroPage := rfl
      have hz : zeroPage.IsLeafPage = false := rfl
      rw [hp]
      simp only [hz, FindChildPageId_zeroPage]
      exact Insert_loop_diverges_at_zero_page _ key f _ rfl
  generalize Insert.loop
    { BPlusTree.new comparator leaf_max_size internal_max_size with root_page_id := 1 } key fuel 1
    (bustubPool.NewPage.2.UnpinPage 1 true) = r at hfr hd
  obtain ⟨o, b⟩ := r
  simp only at hfr hd
  subst hd
  exact ⟨rfl, rfl, by rw [hfr]; rfl⟩

/-- C7 (absent keys), which the code breaks.  On the pool with zero-filled
pages, for every key: on the tree reached by no `Insert` call at all `GetValue`
asks the pool for the page `INVALID_PAGE_ID` and dereferences the null pointer
it gets, so it does not return false; no sequence of one or more `Insert` calls
returns, so no other tree is reached; and on the state that an `Insert` call
leaves behind `GetValue` does not return either, whatever the fuel (the root
page 1 was never formatted, and the descent goes from it to page 0 and stays
there). -/
theorem GetValue_absent_key_does_not_return :
    (∀ (fuel f : Nat) (comparator : KeyComparator) (leaf_max_size internal_max_size : Int)
        (key : KeyType) (result : List ValueType),
      InsertAll fuel [] (BPlusTree.new comparator leaf_max_size internal_max_size) bustubPool
        = (Ret.returned (), BPlusTree.new comparator leaf_max_size internal_max_size,
            bustubPool) ∧
      (GetValue (f + 1) (BPlusTree.new comparator leaf_max_size internal_max_size) bustubPool
        key result).1 = Ret.crashed ∧
      (GetValue (f + 1) (BPlusTree.new comparator leaf_max_size internal_max_size) bustubPool
        key result).2.2.fetch_log = [INVALID_PAGE_ID]) ∧
    (∀ (fuel : Nat) (comparator : KeyComparator) (leaf_max_size internal_max_size : Int)
        (kv : KeyType × ValueType) (rest : List (KeyType × ValueType)),
      (InsertAll fuel (kv :: rest) (BPlusTree.new comparator leaf_max_size internal_max_size)
        bustubPool).1 = Ret.diverged) ∧
    (∀ (fuel f : Nat) (comparator : KeyComparator) (leaf_max_size internal_max_size : Int)
        (k : KeyType) (v : ValueType) (key : KeyType) (result : List ValueType),
      (GetValue f
        (BPlusTree.Insert fuel (BPlusTree.new comparator leaf_max_size internal_max_size)
          bustubPool k v).2.1
        (BPlusTree.Insert fuel (BPlusTree.new comparator leaf_max_size internal_max_size)
          bustubPool k v).2.2 key result).1 = Ret.diverged) := by
  refine ⟨?_, ?_, ?_⟩
  · intro fuel f comparator leaf_max_size internal_max_size key result
    refine ⟨rfl, ?_, ?_⟩
    · unfold GetValue
      have hp : bustubPool.pages
          (BPlusTree.new comparator leaf_max_size internal_max_size).root_page_id = none := rfl
      rw [GetValue_loop_succ, hp]
    · unfold GetValue
      have hp : bustubPool.pages
          (BPlusTree.new comparator leaf_max_size internal_max_size).root_page_id = none := rfl
      rw [GetValue_loop_succ, hp]
      rfl
  · intro fuel comparator leaf_max_size internal_max_size kv rest
    obtain ⟨k, v⟩ := kv
    have h := (Insert_on_bustubPool fuel comparator leaf_max_size internal_max_size k v).1
    unfold InsertAll
    generalize BPlusTree.Insert fuel (BPlusTree.new comparator leaf_max_size internal_max_size)
      bustubPool k v = r at h
    obtain ⟨o, t1, b1⟩ := r
    simp only at h
    subst h
    rfl
  · intro fuel f comparator leaf_max_size internal_max_size k v key result
    obtain ⟨-, hroot, hpages⟩ :=
      Insert_on_bustubPool fuel comparator leaf_max_size internal_max_size k v
    generalize BPlusTree.Insert fuel (BPlusTree.new comparator leaf_max_size internal_max_size)
      bustubPool k v = r at hroot hpages
    obtain ⟨o, t1, b1⟩ := r
    simp only at hroot hpages
    have hd : (GetValue.loop t1 key f t1.root_page_id b1).1 = Ret.diverged := by
      cases f with
      | zero => rfl
      | succ f' =>
        have hp1 : b1.pages t1.root_page_id = some zeroPage := by rw [hroot, hpages]; rfl
        have hz : zeroPage.IsLeafPage = false := rfl
        rw [GetValue_loop_succ, hp1]
        simp only [hz, FindChildPageId_zeroPage]
        exact GetValue_loop_diverges_at_zero_page t1 key f' _ (by
          rw [FetchPage_pages, hpages]; rfl)
    unfold GetValue
    generalize GetValue.loop t1 key f t1.root_page_id b1 = g at hd
    obtain ⟨o2, b2⟩ := g
    simp only at hd
    subst hd
    rfl

/-- C8 (empty-tree lookup), which the code breaks: `GetValue` has no test for
the empty tree; its first step is `FetchPage(root_page_id_)`, so on an empty
tree it asks the pool for the page `INVALID_PAGE_ID`. -/
theorem GetValue_empty_tree_fetches (fuel : Nat) (t : BPlusTree) (bpm : BufferPoolManager)
    (key : KeyType) (result : List ValueType) (h : t.IsEmpty = true) :
    ∃ log, (GetValue (fuel + 1) t bpm key result).2.2.fetch_log
      = log ++ INVALID_PAGE_ID :: bpm.fetch_log := by
  have hr : t.root_page_id = INVALID_PAGE_ID := by simpa [BPlusTree.IsEmpty] using h
  have hl : ∀ (f : Nat) (id : page_id_t) (b : BufferPoolManager),
      ∃ log, (GetValue.loop t key f id b).2.fetch_log = log ++ b.fetch_log := by
    intro f
    induction f with
    | zero => intro id b; exact ⟨[], rfl⟩
    | succ f ih =>
      intro id b
      rw [GetValue_loop_succ]
      cases hp : b.pages id with
      | none => exact ⟨[id], by simp⟩
      | some node =>
        by_cases hleaf : node.IsLeafPage = true
        · exact ⟨[id], by simp [hleaf]⟩
        · simp only [hleaf]
          obtain ⟨log, hlog⟩ := ih (t.FindChildPageId key node) (b.FetchPage id).2
          exact ⟨log ++ [id], by simp [hlog]⟩
  have hg : (GetValue (fuel + 1) t bpm key result).2.2
      = (GetValue.loop t key (fuel + 1) t.root_page_id bpm).2 := by
    unfold GetValue
    generalize GetValue.loop t key (fuel + 1) t.root_page_id bpm = r
    obtain ⟨o, b⟩ := r
    cases o <;> rfl
  rw [hg, hr, GetValue_loop_succ]
  cases hp : bpm.pages INVALID_PAGE_ID with
  | none => exact ⟨[], by simp⟩
  | some node =>
    by_cases hleaf : node.IsLeafPage = true
    · exact ⟨[], by simp [hleaf]⟩
    · simp only [hleaf]
      obtain ⟨log, hlog⟩ := hl fuel (t.FindChildPageId key node) (bpm.FetchPage INVALID_PAGE_ID).2
      exact ⟨log, by simp [hlog]⟩

/-- Witness for C8: the newly constructed tree on a pool holding only the header
page.  `GetValue(5)` calls `FetchPage(-1)`, gets no page and dereferences the
null pointer. -/
theorem GetValue_empty_tree_fetches_witness :
    (BPlusTree.new GenericComparator 4 4).IsEmpty = true ∧
    (∃ log, (GetValue 1 (BPlusTree.new GenericComparator 4 4) bustubPool 5 []).2.2.fetch_log
      = log ++ INVALID_PAGE_ID :: bustubPool.fetch_log) ∧
    (GetValue 1 (BPlusTree.new GenericComparator 4 4) bustubPool 5 []).2.2.fetch_log = [-1] ∧
    (GetValue 1 (BPlusTree.new GenericComparator 4 4) bustubPool 5 []).1 = Ret.crashed :=
  ⟨rfl, GetValue_empty_tree_fetches 0 (BPlusTree.new GenericComparator 4 4) bustubPool 5 [] rfl,
    by decide, by decide⟩

/-- C9 (remove-all empties the tree), which the code breaks: `Remove` has an
empty body.  After the entries of a non-empty list are inserted into an empty
tree (on a pool whose page ids are not negative) and `Remove` is called on each
key, `IsEmpty()` is false: the root page id is still the one the `Insert` calls
left, whether or not each of them returned. -/
theorem RemoveAll_after_InsertAll (fuel : Nat) (kvs : List (KeyType × ValueType))
    (comparator : KeyComparator) (leaf_max_size internal_max_size : Int)
    (bpm : BufferPoolManager) (hne : kvs ≠ []) (hpool : 0 ≤ bpm.next_page_id) :
    (RemoveAll (kvs.map Prod.fst)
      (InsertAll fuel kvs (BPlusTree.new comparator leaf_max_size internal_max_size) bpm).2.1
      (InsertAll fuel kvs (BPlusTree.new comparator leaf_max_size internal_max_size) bpm).2.2).1.IsEmpty
      = false := by
  have h := InsertAll_root_nonneg fuel kvs
    (BPlusTree.new comparator leaf_max_size internal_max_size) bpm hne hpool (Or.inl rfl)
  rw [RemoveAll_eq]
  simp only [BPlusTree.IsEmpty, INVALID_PAGE_ID, decide_eq_false_iff_not]
  intro he
  rw [he] at h
  exact absurd h (by decide)

/-- Witness for C9: keys 1 and 2 are inserted into the empty tree (both calls
return) and removed again; `IsEmpty()` is false afterwards. -/
theorem RemoveAll_after_InsertAll_witness :
    ([(1, 100), (2, 200)] : List (KeyType × ValueType)) ≠ [] ∧
    0 ≤ leafPool.next_page_id ∧
    (InsertAll 1 [(1, 100), (2, 200)] (BPlusTree.new GenericComparator 4 4) leafPool).1
      = Ret.returned () ∧
    (RemoveAll [1, 2]
      (InsertAll 1 [(1, 100), (2, 200)] (BPlusTree.new GenericComparator 4 4) leafPool).2.1
      (InsertAll 1 [(1, 100), (2, 200)] (BPlusTree.new GenericComparator 4 4) leafPool).2.2).1.IsEmpty
      = false :=
  ⟨by decide, by decide, by decide,
    RemoveAll_after_InsertAll 1 [(1, 100), (2, 200)] GenericComparator 4 4 leafPool (by decide)
      (by decide)⟩

/-- C10 (remove of an absent key changes nothing): `Remove(key)` leaves
`root_page_id_` and the pool, so the contents of every page, as they were; this
holds for every tree, the empty one included, and every key. -/
theorem Remove_changes_nothing (t : BPlusTree) (bpm : BufferPoolManager) (key : KeyType) :
    (Remove t bpm key).1.root_page_id = t.root_page_id ∧
    (Remove t bpm key).2 = bpm ∧
    ∀ id, (Remove t bpm key).2.pages id = bpm.pages id :=
  ⟨rfl, rfl, fun _ => rfl⟩

/-! ## Lemmas on the leaf page -/

/-- What the binary search returns, for any comparison outcome `less`: an index
of the range whose predecessor (if in the range) is `less` and which itself (if
in the range) is not. -/
theorem lower_bound_bracket (less : Int → Bool) :
    ∀ (fuel : Nat) (first len : Int), 0 ≤ len → len.toNat ≤ fuel →
      first ≤ BPlusTreeLeafPage.lower_bound less fuel first len ∧
      BPlusTreeLeafPage.lower_bound less fuel first len ≤ first + len ∧
      (first < BPlusTreeLeafPage.lower_bound less fuel first len →
        less (BPlusTreeLeafPage.lower_bound less fuel first len - 1) = true) ∧
      (BPlusTreeLeafPage.lower_bound less fuel first len < first + len →
        less (BPlusTreeLeafPage.lower_bound less fuel first len) = false) := by
  intro fuel
  induction fuel with
  | zero =>
    intro first len h0 hf
    have hl : len = 0 := by omega
    subst hl
    simp [BPlusTreeLeafPage.lower_bound]
  | succ f ih =>
    intro first len h0 hf
    rw [BPlusTreeLeafPage.lower_bound]
    by_cases hpos : 0 < len
    · simp only [hpos, if_true]
      have hhalf : 0 ≤ len / 2 ∧ len / 2 < len := by omega
      by_cases hm : less (first + len / 2) = true
      · simp only [hm, if_true]
        obtain ⟨h1, h2, h3, h4⟩ := ih (first + len / 2 + 1) (len - len / 2 - 1) (by omega) (by omega)
        have hx : first + len / 2 + 1 + (len - len / 2 - 1) = first + len := by omega
        rw [hx] at h2 h4
        refine ⟨by omega, h2, ?_, ?_⟩
        · intro _
          by_cases he : BPlusTreeLeafPage.lower_bound less f (first + len / 2 + 1)
              (len - len / 2 - 1) = first + len / 2 + 1
          · rw [he]
            have : first + len / 2 + 1 - 1 = first + len / 2 := by omega
            rw [this]
            exact hm
          · exact h3 (lt_of_le_of_ne h1 (Ne.symm he))
        · intro hlt
          exact h4 hlt
      · simp only [hm]
        obtain ⟨h1, h2, h3, h4⟩ := ih first (len / 2) (by omega) (by omega)
        refine ⟨h1, le_trans h2 (by omega), h3, ?_⟩
        intro hlt
        by_cases he : BPlusTreeLeafPage.lower_bound less f first (len / 2) = first + len / 2
        · rw [he]
          simpa using hm
        · exact h4 (lt_of_le_of_ne h2 he)
    · simp only [hpos, if_false]
      refine ⟨le_refl _, by omega, ?_, ?_⟩
      · intro h; exact absurd h (lt_irrefl _)
      · intro h; omega

theorem TotalOrderComparator.neg_iff {comparator : KeyComparator}
    (hc : TotalOrderComparator comparator) (a b : KeyType) :
    comparator a b < 0 ↔ comparator a b = -1 := by
  rcases hc.range a b with h | h | h <;> rw [h] <;> decide

theorem TotalOrderComparator.lt_trans {comparator : KeyComparator}
    (hc : TotalOrderComparator comparator) (a b c : KeyType)
    (h1 : comparator a b < 0) (h2 : comparator b c < 0) : comparator a c < 0 := by
  rw [hc.neg_iff] at h1 h2 ⊢
  exact hc.trans a b c h1 h2

theorem TotalOrderComparator.pos_iff {comparator : KeyComparator}
    (hc : TotalOrderComparator comparator) (a b : KeyType) :
    0 < comparator a b ↔ comparator b a < 0 := by
  rw [hc.neg_iff, ← hc.swap]
  rcases hc.range a b with h | h | h <;> rw [h] <;> decide

theorem GenericComparator_total : TotalOrderComparator GenericComparator := by
  refine ⟨?_, ?_, ?_, ?_⟩
  · intro (a : Int) (b : Int)
    unfold GenericComparator
    by_cases h1 : a < b
    · simp [h1]
    · by_cases h2 : b < a <;> simp [h1, h2]
  · intro (a : Int) (b : Int)
    unfold GenericComparator
    by_cases h1 : a < b
    · rw [if_pos h1]
      exact ⟨fun h => absurd h (by decide), fun h => absurd h (ne_of_lt h1)⟩
    · by_cases h2 : b < a
      · rw [if_neg h1, if_pos h2]
        exact ⟨fun h => absurd h (by decide), fun h => absurd h (ne_of_gt h2)⟩
      · rw [if_neg h1, if_neg h2]
        exact ⟨fun _ => le_antisymm (not_lt.mp h2) (not_lt.mp h1), fun _ => rfl⟩
  · intro (a : Int) (b : Int)
    unfold GenericComparator
    by_cases h1 : a < b
    · have h2 : ¬ b < a := by omega
      simp [h1, h2]
    · by_cases h2 : b < a
      · simp [h1, h2]
      · simp [h1, h2]
  · intro (a : Int) (b : Int) (c : Int)
    unfold GenericComparator
    by_cases h1 : a < b
    · by_cases h2 : b < c
      · have h3 : a < c := by omega
        simp [h1, h2, h3]
      · by_cases h4 : c < b <;> simp [h1, h2, h4]
    · by_cases h4 : b < a <;> simp [h1, h4]

/-- The index found by `FindKeyIndex` in a sorted leaf page is a lower bound of
the key. -/
theorem FindKeyIndex_isLowerBound (comparator : KeyComparator) (p : BPlusTreePage)
    (key : KeyType) (hc : TotalOrderComparator comparator) (hsize : 0 ≤ p.GetSize)
    (hs : LeafSorted comparator p p.GetSize) :
    IsLowerBound comparator p key (BPlusTreeLeafPage.FindKeyIndex p key comparator) := by
  have hb := lower_bound_bracket (fun j => decide (comparator (p.leaf_array j).1 key < 0))
    p.GetSize.toNat 0 p.GetSize hsize (le_refl _)
  have hr : BPlusTreeLeafPage.lower_bound
      (fun j => decide (comparator (p.leaf_array j).1 key < 0)) p.GetSize.toNat 0 p.GetSize
      = BPlusTreeLeafPage.FindKeyIndex p key comparator := rfl
  rw [hr] at hb
  generalize BPlusTreeLeafPage.FindKeyIndex p key comparator = r at hb
  obtain ⟨h1, h2, h3, h4⟩ := hb
  simp only [zero_add, decide_eq_true_eq, decide_eq_false_iff_not, not_lt] at h2 h3 h4
  refine ⟨h1, h2, ?_, ?_⟩
  · intro j hj0 hjr
    have hlast := h3 (by omega)
    by_cases he : j = r - 1
    · rw [he]; exact hlast
    · exact hc.lt_trans _ _ _ (hs j (r - 1) hj0 (by omega) (by omega)) hlast
  · intro j hrj hjs
    have hfirst := h4 (by omega)
    by_cases he : j = r
    · rw [he]; exact hfirst
    · by_contra hneg
      have hlt : comparator (BPlusTreeLeafPage.KeyAt p j) key < 0 := by omega
      have := hc.lt_trans _ _ _ (hs r j h1 (by omega) hjs) hlt
      have hfirst' : 0 ≤ comparator (BPlusTreeLeafPage.KeyAt p r) key := hfirst
      omega

theorem IsLowerBound_unique (comparator : KeyComparator) (p : BPlusTreePage) (key : KeyType)
    (i i' : Int) (h : IsLowerBound comparator p key i) (h' : IsLowerBound comparator p key i') :
    i = i' := by
  obtain ⟨h0, h1, h2, h3⟩ := h
  obtain ⟨h0', h1', h2', h3'⟩ := h'
  by_contra hne
  rcases lt_or_gt_of_ne hne with hlt | hgt
  · have a := h2' i h0 hlt
    have b := h3 i (le_refl _) (by omega)
    omega
  · have a := h2 i' h0' hgt
    have b := h3' i' (le_refl _) (by omega)
    omega

/-- The copy `move_backward` as one update of the slot array: the `n` slots
below `last` move one slot up. -/
theorem move_backward_eq (n : Nat) :
    ∀ (last : Int) (p : BPlusTreePage),
      BPlusTreeLeafPage.move_backward n last (last + 1) p =
        { p with
          leaf_array := fun j =>
            if last - n < j ∧ j ≤ last then p.leaf_array (j - 1) else p.leaf_array j } := by
  induction n with
  | zero =>
    intro last p
    have h : ∀ j : Int, ¬ (last < j ∧ j ≤ last) := by
      intro j; omega
    simp [BPlusTreeLeafPage.move_backward, h]
  | succ n ih =>
    intro last p
    rw [BPlusTreeLeafPage.move_backward]
    have hl : last + 1 - 1 = last - 1 + 1 := by omega
    rw [hl, ih]
    simp only [BPlusTreeLeafPage.SetEntryAt]
    congr 1
    funext j
    have hl2 : last - 1 + 1 = last := by omega
    rw [hl2]
    by_cases h1 : last - 1 - (n : Int) < j ∧ j ≤ last - 1
    · have h2 : last - ((n + 1 : Nat) : Int) < j ∧ j ≤ last := by
        push_cast; omega
      have h3 : ¬ j - 1 = last := by omega
      simp only [h1, h2, h3, and_self, if_true, if_false]
    · by_cases h4 : j = last
      · have h2 : last - ((n + 1 : Nat) : Int) < j ∧ j ≤ last := by
          push_cast; omega
        subst h4
        simp only [h1, h2, and_self, if_true, if_false]
      · have h2 : ¬ (last - ((n + 1 : Nat) : Int) < j ∧ j ≤ last) := by
          push_cast; omega
        simp only [h1, h2, h4, if_false]

/-- The page that the leaf `Insert` leaves when the key is new: the entry sits
at the index found by `FindKeyIndex`, the entries from there on are one slot
up, and the size is one larger. -/
theorem LeafPage_Insert_of_new (comparator : KeyComparator) (p : BPlusTreePage) (key : KeyType)
    (value : ValueType)
    (hle : BPlusTreeLeafPage.FindKeyIndex p key comparator ≤ p.GetSize)
    (hne : BPlusTreeLeafPage.FindKeyIndex p key comparator < p.GetSize →
      comparator (p.leaf_array (BPlusTreeLeafPage.FindKeyIndex p key comparator)).1 key ≠ 0) :
    BPlusTreeLeafPage.Insert p key value comparator =
      (true,
        { p with
          size := p.size + 1
          leaf_array := fun j =>
            if j = BPlusTreeLeafPage.FindKeyIndex p key comparator then (key, value)
            else if BPlusTreeLeafPage.FindKeyIndex p key comparator < j ∧ j ≤ p.GetSize then
              p.leaf_array (j - 1)
            else p.leaf_array j }) := by
  unfold BPlusTreeLeafPage.Insert
  generalize BPlusTreeLeafPage.FindKeyIndex p key comparator = idx at hle hne
  by_cases he : idx = p.GetSize
  · simp only [he, if_true, BPlusTreeLeafPage.SetEntryAt, BPlusTreePage.IncreaseSize]
    congr 2
    funext j
    by_cases hj : j = p.GetSize
    · simp [hj]
    · have : ¬ (p.GetSize < j ∧ j ≤ p.GetSize) := by omega
      simp [hj, this]
  · have hlt : idx < p.GetSize := lt_of_le_of_ne hle he
    simp only [he, if_false, hne hlt]
    rw [move_backward_eq]
    simp only [BPlusTreeLeafPage.SetEntryAt, BPlusTreePage.IncreaseSize]
    congr 2
    funext j
    by_cases hj : j = idx
    · simp [hj]
    · have : (p.GetSize - ((p.GetSize - idx).toNat : Int) < j ∧ j ≤ p.GetSize)
          ↔ (idx < j ∧ j ≤ p.GetSize) := by
        have : ((p.GetSize - idx).toNat : Int) = p.GetSize - idx := Int.toNat_of_nonneg (by omega)
        rw [this]
        constructor <;> intro h <;> omega
      simp only [hj, if_false, this]

theorem sortedLeaf_sorted : LeafSorted GenericComparator sortedLeaf sortedLeaf.GetSize := by
  intro i j h0 hij hj
  have hj3 : j < 3 := hj
  have hi : i = 0 ∨ i = 1 := by omega
  have hj' : j = 1 ∨ j = 2 := by omega
  rcases hi with rfl | rfl <;> rcases hj' with rfl | rfl <;> first | decide | omega

/-- C13 (leaf-page sorted insertion): on a leaf page whose entries 0..size-1 are
strictly increasing, with size below max size, `Insert` of a key that is not
among them returns true, makes the size one larger, leaves the entries 0..size
strictly increasing, and these entries are the old ones in their old order with
`(key, value)` put in at one index. -/
theorem LeafPage_Insert_sorted (comparator : KeyComparator) (p : BPlusTreePage) (key : KeyType)
    (value : ValueType) (hc : TotalOrderComparator comparator) (hsize : 0 ≤ p.GetSize)
    (_hroom : p.GetSize < p.GetMaxSize) (hs : LeafSorted comparator p p.GetSize)
    (hnew : ∀ j, 0 ≤ j → j < p.GetSize → comparator (BPlusTreeLeafPage.KeyAt p j) key ≠ 0) :
    (BPlusTreeLeafPage.Insert p key value comparator).1 = true ∧
    (BPlusTreeLeafPage.Insert p key value comparator).2.GetSize = p.GetSize + 1 ∧
    LeafSorted comparator (BPlusTreeLeafPage.Insert p key value comparator).2 (p.GetSize + 1) ∧
    ∃ idx, 0 ≤ idx ∧ idx ≤ p.GetSize ∧
      (BPlusTreeLeafPage.Insert p key value comparator).2.leaf_array idx = (key, value) ∧
      (∀ j, 0 ≤ j → j < idx →
        (BPlusTreeLeafPage.Insert p key value comparator).2.leaf_array j = p.leaf_array j) ∧
      (∀ j, idx ≤ j → j < p.GetSize →
        (BPlusTreeLeafPage.Insert p key value comparator).2.leaf_array (j + 1)
          = p.leaf_array j) := by
  obtain ⟨h0, h1, h2, h3⟩ := FindKeyIndex_isLowerBound comparator p key hc hsize hs
  have hins := LeafPage_Insert_of_new comparator p key value h1
    (fun hlt => hnew _ h0 hlt)
  rw [hins]
  generalize BPlusTreeLeafPage.FindKeyIndex p key comparator = idx at h0 h1 h2 h3
  have hlt : ∀ j, j < idx →
      (if j = idx then (key, value)
        else if idx < j ∧ j ≤ p.GetSize then p.leaf_array (j - 1) else p.leaf_array j)
      = p.leaf_array j := by
    intro j hj
    have a : ¬ j = idx := by omega
    have b : ¬ (idx < j ∧ j ≤ p.GetSize) := by omega
    simp only [a, b, if_false]
  have hgt : ∀ j, idx < j → j ≤ p.GetSize →
      (if j = idx then (key, value)
        else if idx < j ∧ j ≤ p.GetSize then p.leaf_array (j - 1) else p.leaf_array j)
      = p.leaf_array (j - 1) := by
    intro j hj hj2
    have a : ¬ j = idx := by omega
    simp only [a, hj, hj2, and_self, if_true, if_false]
  have k2 : ∀ j, idx ≤ j → j < p.GetSize →
      comparator key (BPlusTreeLeafPage.KeyAt p j) < 0 := by
    intro j hj hj2
    rw [← hc.pos_iff]
    have a := h3 j hj hj2
    have b := hnew j (by omega) hj2
    omega
  refine ⟨rfl, rfl, ?_, idx, h0, h1, by simp, ?_, ?_⟩
  · intro i j hi hij hj
    simp only [BPlusTreeLeafPage.KeyAt]
    rcases lt_trichotomy i idx with hi1 | hi1 | hi1
    · rw [hlt i hi1]
      rcases lt_trichotomy j idx with hj1 | hj1 | hj1
      · rw [hlt j hj1]
        exact hs i j hi hij (by omega)
      · subst hj1
        simp only [if_true]
        exact h2 i hi hi1
      · rw [hgt j hj1 (by omega)]
        exact hs i (j - 1) hi (by omega) (by omega)
    · subst hi1
      rw [hgt j hij (by omega)]
      simp only [if_true]
      exact k2 (j - 1) (by omega) (by omega)
    · rw [hgt i hi1 (by omega), hgt j (by omega) (by omega)]
      exact hs (i - 1) (j - 1) (by omega) (by omega) (by omega)
  · intro j _ hj
    exact hlt j hj
  · intro j hj hj2
    have a : ¬ j + 1 = idx := by omega
    have b : idx < j + 1 ∧ j + 1 ≤ p.GetSize := ⟨by omega, by omega⟩
    simp [a, b]

/-- Witness for C13: key 25 goes into the leaf holding 10, 20, 30. -/
theorem LeafPage_Insert_sorted_witness :
    TotalOrderComparator GenericComparator ∧ 0 ≤ sortedLeaf.GetSize ∧
    sortedLeaf.GetSize < sortedLeaf.GetMaxSize ∧
    LeafSorted GenericComparator sortedLeaf sortedLeaf.GetSize ∧
    (∀ j, 0 ≤ j → j < sortedLeaf.GetSize →
      GenericComparator (BPlusTreeLeafPage.KeyAt sortedLeaf j) 25 ≠ 0) ∧
    (BPlusTreeLeafPage.Insert sortedLeaf 25 250 GenericComparator).1 = true ∧
    (BPlusTreeLeafPage.Insert sortedLeaf 25 250 GenericComparator).2.GetSize = 4 ∧
    LeafSorted GenericComparator (BPlusTreeLeafPage.Insert sortedLeaf 25 250 GenericComparator).2 4 ∧
    (BPlusTreeLeafPage.Insert sortedLeaf 25 250 GenericComparator).2.leaf_array 2 = (25, 250) ∧
    (BPlusTreeLeafPage.Insert sortedLeaf 25 250 GenericComparator).2.leaf_array 3 = (30, 300) :=
  have hnew : ∀ j, 0 ≤ j → j < sortedLeaf.GetSize →
      GenericComparator (BPlusTreeLeafPage.KeyAt sortedLeaf j) 25 ≠ 0 := by
    intro j h0 hj
    have hj3 : j < 3 := hj
    have : j = 0 ∨ j = 1 ∨ j = 2 := by omega
    rcases this with rfl | rfl | rfl <;> decide
  have hx := LeafPage_Insert_sorted GenericComparator sortedLeaf 25 250 GenericComparator_total
    (by decide) (by decide) sortedLeaf_sorted hnew
  ⟨GenericComparator_total, by decide, by decide, sortedLeaf_sorted, hnew, hx.1, hx.2.1,
    hx.2.2.1, by decide, by decide⟩

/-- C14 (leaf-page duplicate rejection): on a leaf page whose entries 0..size-1
are strictly increasing, `Insert` of a key that compares equal to the key of
slot `m` returns false and leaves the page, so its size and every entry, as it
was. -/
theorem LeafPage_Insert_duplicate (comparator : KeyComparator) (p : BPlusTreePage)
    (key : KeyType) (value : ValueType) (m : Int) (hc : TotalOrderComparator comparator)
    (hs : LeafSorted comparator p p.GetSize) (hm0 : 0 ≤ m) (hm : m < p.GetSize)
    (heq : comparator (BPlusTreeLeafPage.KeyAt p m) key = 0) :
    (BPlusTreeLeafPage.Insert p key value comparator).1 = false ∧
    (BPlusTreeLeafPage.Insert p key value comparator).2 = p ∧
    (BPlusTreeLeafPage.Insert p key value comparator).2.GetSize = p.GetSize ∧
    ∀ j, (BPlusTreeLeafPage.Insert p key value comparator).2.leaf_array j = p.leaf_array j := by
  obtain ⟨h0, h1, h2, h3⟩ := FindKeyIndex_isLowerBound comparator p key hc (by omega) hs
  have hidx : BPlusTreeLeafPage.FindKeyIndex p key comparator = m := by
    generalize BPlusTreeLeafPage.FindKeyIndex p key comparator = idx at h0 h1 h2 h3
    rcases lt_trichotomy idx m with hlt | he | hgt
    · have a := hs idx m h0 hlt hm
      have hk : BPlusTreeLeafPage.KeyAt p m = key := (hc.eq_iff _ _).mp heq
      rw [hk] at a
      have b := h3 idx (le_refl _) (by omega)
      omega
    · exact he
    · have a := h2 m hm0 hgt
      omega
  have hins : BPlusTreeLeafPage.Insert p key value comparator = (false, p) := by
    unfold BPlusTreeLeafPage.Insert
    rw [hidx]
    have hne : ¬ m = p.GetSize := by omega
    have heq' : comparator (p.leaf_array m).1 key = 0 := heq
    simp only [hne, if_false, heq', if_true]
  rw [hins]
  exact ⟨rfl, rfl, rfl, fun _ => rfl⟩

/-- Witness for C14: key 20 is in slot 1 of the leaf holding 10, 20, 30. -/
theorem LeafPage_Insert_duplicate_witness :
    TotalOrderComparator GenericComparator ∧
    LeafSorted GenericComparator sortedLeaf sortedLeaf.GetSize ∧
    GenericComparator (BPlusTreeLeafPage.KeyAt sortedLeaf 1) 20 = 0 ∧
    (BPlusTreeLeafPage.Insert sortedLeaf 20 999 GenericComparator).1 = false ∧
    (BPlusTreeLeafPage.Insert sortedLeaf 20 999 GenericComparator).2 = sortedLeaf :=
  have hx := LeafPage_Insert_duplicate GenericComparator sortedLeaf 20 999 1
    GenericComparator_total sortedLeaf_sorted (by decide) (by decide) (by decide)
  ⟨GenericComparator_total, sortedLeaf_sorted, by decide, hx.1, hx.2.1⟩

/-- C18 (leaf lower bound): on a leaf page whose keys 0..size-1 are strictly
increasing, `FindKeyIndex(key)` is an index `i` with `0 <= i <= size` such that
the keys below `i` are less than `key` and the keys from `i` to `size - 1` are
not; it is the only such index; it is the index of `key` when `key` is present,
and `size` when `key` is above all keys. -/
theorem FindKeyIndex_lower_bound (comparator : KeyComparator) (p : BPlusTreePage)
    (key : KeyType) (hc : TotalOrderComparator comparator) (hsize : 0 ≤ p.GetSize)
    (hs : LeafSorted comparator p p.GetSize) :
    IsLowerBound comparator p key (BPlusTreeLeafPage.FindKeyIndex p key comparator) ∧
    (∀ i, IsLowerBound comparator p key i →
      i = BPlusTreeLeafPage.FindKeyIndex p key comparator) ∧
    (∀ m, 0 ≤ m → m < p.GetSize → comparator (BPlusTreeLeafPage.KeyAt p m) key = 0 →
      BPlusTreeLeafPage.FindKeyIndex p key comparator = m) ∧
    ((∀ j, 0 ≤ j → j < p.GetSize → comparator (BPlusTreeLeafPage.KeyAt p j) key < 0) →
      BPlusTreeLeafPage.FindKeyIndex p key comparator = p.GetSize) := by
  have hlb := FindKeyIndex_isLowerBound comparator p key hc hsize hs
  refine ⟨hlb, fun i hi => IsLowerBound_unique comparator p key _ _ hi hlb, ?_, ?_⟩
  · intro m hm0 hm heq
    symm
    apply IsLowerBound_unique comparator p key m _ _ hlb
    have hk : BPlusTreeLeafPage.KeyAt p m = key := (hc.eq_iff _ _).mp heq
    refine ⟨hm0, le_of_lt hm, ?_, ?_⟩
    · intro j hj0 hjm
      have := hs j m hj0 hjm hm
      rwa [hk] at this
    · intro j hmj hj
      by_cases he : j = m
      · rw [he, heq]
      · have := hs m j hm0 (by omega) hj
        rw [hk] at this
        exact le_of_lt ((hc.pos_iff _ _).mpr this)
  · intro hall
    symm
    apply IsLowerBound_unique comparator p key p.GetSize _ _ hlb
    exact ⟨hsize, le_refl _, hall, fun j h1 h2 => by omega⟩

/-- Witness for C18: in the leaf holding 10, 20, 30 the index for 25 is 2, the
index for 20 is 1 and the index for 35 is 3. -/
theorem FindKeyIndex_lower_bound_witness :
    TotalOrderComparator GenericComparator ∧ 0 ≤ sortedLeaf.GetSize ∧
    LeafSorted GenericComparator sortedLeaf sortedLeaf.GetSize ∧
    IsLowerBound GenericComparator sortedLeaf 25
      (BPlusTreeLeafPage.FindKeyIndex sortedLeaf 25 GenericComparator) ∧
    BPlusTreeLeafPage.FindKeyIndex sortedLeaf 25 GenericComparator = 2 ∧
    BPlusTreeLeafPage.FindKeyIndex sortedLeaf 20 GenericComparator = 1 ∧
    BPlusTreeLeafPage.FindKeyIndex sortedLeaf 35 GenericComparator = 3 :=
  ⟨GenericComparator_total, by decide, sortedLeaf_sorted,
    (FindKeyIndex_lower_bound GenericComparator sortedLeaf 25 GenericComparator_total
      (by decide) sortedLeaf_sorted).1, by decide, by decide, by decide⟩

/-! ## Lemmas on the internal page -/

/-- What the scan of lines 76-81 returns: the first slot from `i0` on whose key
does not compare -1 with `key`, or `i0 + n` when there is none. -/
theorem scanKeys_spec (comparator : KeyComparator) (keyAt : Int → KeyType) (key : KeyType)
    (n : Nat) :
    ∀ i0 : Int,
      i0 ≤ scanKeys comparator keyAt key n i0 ∧
      scanKeys comparator keyAt key n i0 ≤ i0 + n ∧
      (∀ j, i0 ≤ j → j < scanKeys comparator keyAt key n i0 → comparator (keyAt j) key = -1) ∧
      (scanKeys comparator keyAt key n i0 < i0 + n →
        comparator (keyAt (scanKeys comparator keyAt key n i0)) key ≠ -1) := by
  induction n with
  | zero =>
    intro i0
    simp only [scanKeys]
    exact ⟨le_refl _, by simp, fun j h1 h2 => by omega, fun h => by simp at h⟩
  | succ n ih =>
    intro i0
    rw [scanKeys]
    by_cases hb : comparator (keyAt i0) key ≠ -1
    · rw [if_pos hb]
      exact ⟨le_refl _, by push_cast; omega, fun j h1 h2 => by omega, fun _ => hb⟩
    · rw [if_neg hb]
      obtain ⟨h1, h2, h3, h4⟩ := ih (i0 + 1)
      refine ⟨by omega, by push_cast; omega, ?_, ?_⟩
      · intro j hj1 hj2
        by_cases he : j = i0
        · rw [he]; exact not_not.mp hb
        · exact h3 j (by omega) hj2
      · intro hlt
        exact h4 (by push_cast at hlt; omega)

theorem TotalOrderComparator.lt_of_lt_of_le {comparator : KeyComparator}
    (hc : TotalOrderComparator comparator) (a b c : KeyType)
    (h1 : comparator a b < 0) (h2 : comparator b c ≤ 0) : comparator a c < 0 := by
  rcases hc.range b c with h | h | h
  · exact hc.lt_trans a b c h1 (by rw [h]; decide)
  · rw [← (hc.eq_iff b c).mp h]; exact h1
  · rw [h] at h2; exact absurd h2 (by decide)

theorem CoversKey_unique_aux (comparator : KeyComparator) (p : BPlusTreePage) (key : KeyType)
    (hc : TotalOrderComparator comparator) (hs : InternalSorted comparator p) (i i' : Int)
    (h : CoversKey comparator p key i) (h' : CoversKey comparator p key i') : ¬ i < i' := by
  intro hlt
  obtain ⟨h0, h1, _, h3⟩ := h
  obtain ⟨_, h1', h2', _⟩ := h'
  have a : 0 < comparator (BPlusTreeInternalPage.KeyAt p (i + 1)) key := by
    rcases h3 with h3 | h3
    · omega
    · exact h3
  have b : comparator (BPlusTreeInternalPage.KeyAt p i') key ≤ 0 := by
    rcases h2' with h2' | h2'
    · omega
    · exact h2'
  by_cases he : i + 1 = i'
  · rw [he] at a; omega
  · have c := hs (i + 1) i' (by omega) (by omega) h1'
    have d := hc.lt_of_lt_of_le _ _ _ c b
    omega

/-- C17 (child selection): on an internal page whose keys 1..size are strictly
increasing, with a total-order comparator, `FindChildPageId` returns the child
id of a slot `i` with `key[i] <= key < key[i+1]`; there is only one such slot;
the child is the last one when `key` is not below any key, and child 0 when
`key` is below `key[1]`. -/
theorem FindChildPageId_covers (t : BPlusTree) (p : BPlusTreePage) (key : KeyType)
    (hc : TotalOrderComparator t.comparator) (hsize : 0 ≤ p.GetSize)
    (hs : InternalSorted t.comparator p) :
    (∃ i, CoversKey t.comparator p key i ∧
      t.FindChildPageId key p = BPlusTreeInternalPage.ValueAt p i) ∧
    (∀ i i', CoversKey t.comparator p key i → CoversKey t.comparator p key i' → i = i') ∧
    ((∀ j, 1 ≤ j → j ≤ p.GetSize → t.comparator (BPlusTreeInternalPage.KeyAt p j) key ≤ 0) →
      t.FindChildPageId key p = BPlusTreeInternalPage.ValueAt p p.GetSize) ∧
    ((p.GetSize = 0 ∨ 0 < t.comparator (BPlusTreeInternalPage.KeyAt p 1) key) →
      t.FindChildPageId key p = BPlusTreeInternalPage.ValueAt p 0) := by
  have huniq : ∀ i i', CoversKey t.comparator p key i → CoversKey t.comparator p key i' →
      i = i' := by
    intro i i' h h'
    have a := CoversKey_unique_aux t.comparator p key hc hs i i' h h'
    have b := CoversKey_unique_aux t.comparator p key hc hs i' i h' h
    omega
  have hex : ∃ i, CoversKey t.comparator p key i ∧
      t.FindChildPageId key p = BPlusTreeInternalPage.ValueAt p i := by
    obtain ⟨h1, h2, h3, h4⟩ := scanKeys_spec t.comparator (BPlusTreeInternalPage.KeyAt p) key
      p.GetSize.toNat 1
    have hn : ((p.GetSize.toNat : Nat) : Int) = p.GetSize := Int.toNat_of_nonneg hsize
    rw [hn] at h2 h4
    unfold FindChildPageId
    simp only []
    generalize scanKeys t.comparator (BPlusTreeInternalPage.KeyAt p) key p.GetSize.toNat 1 = r
      at h1 h2 h3 h4
    by_cases hr : r = p.GetSize + 1
    · refine ⟨p.GetSize, ⟨hsize, le_refl _, ?_, Or.inl rfl⟩, ?_⟩
      · by_cases h0 : p.GetSize = 0
        · exact Or.inl h0
        · right
          rw [h3 p.GetSize (by omega) (by omega)]
          decide
      · simp only [hr, if_true]
        congr 1
        omega
    · have hne := h4 (by omega)
      simp only [hr, if_false]
      by_cases h0 : t.comparator (BPlusTreeInternalPage.KeyAt p r) key = 0
      · simp only [h0, if_true]
        refine ⟨r, ⟨by omega, by omega, Or.inr (by rw [h0]), ?_⟩, rfl⟩
        by_cases hrs : r = p.GetSize
        · exact Or.inl hrs
        · right
          have a := hs r (r + 1) h1 (by omega) (by omega)
          rw [(hc.eq_iff _ _).mp h0] at a
          exact (hc.pos_iff _ _).mpr a
      · simp only [h0, if_false]
        have hpos : t.comparator (BPlusTreeInternalPage.KeyAt p r) key = 1 := by
          rcases hc.range (BPlusTreeInternalPage.KeyAt p r) key with h | h | h
          · exact absurd h hne
          · exact absurd h h0
          · exact h
        refine ⟨r - 1, ⟨by omega, by omega, ?_, ?_⟩, rfl⟩
        · by_cases hr1 : r - 1 = 0
          · exact Or.inl hr1
          · right
            rw [h3 (r - 1) (by omega) (by omega)]
            decide
        · right
          have : r - 1 + 1 = r := by omega
          rw [this, hpos]
          decide
  refine ⟨hex, huniq, ?_, ?_⟩
  · intro hall
    obtain ⟨i, hi, hv⟩ := hex
    have hcov : CoversKey t.comparator p key p.GetSize := by
      refine ⟨hsize, le_refl _, ?_, Or.inl rfl⟩
      by_cases h0 : p.GetSize = 0
      · exact Or.inl h0
      · exact Or.inr (hall p.GetSize (by omega) (le_refl _))
    rw [hv, huniq i _ hi hcov]
  · intro hlow
    obtain ⟨i, hi, hv⟩ := hex
    have hcov : CoversKey t.comparator p key 0 := by
      refine ⟨le_refl _, hsize, Or.inl rfl, ?_⟩
      rcases hlow with h | h
      · exact Or.inl h.symm
      · exact Or.inr h
    rw [hv, huniq i _ hi hcov]

theorem fullParent_sorted : InternalSorted treeAt3.comparator fullParent := by
  intro i j h1 hij hj
  have hj2 : j ≤ 2 := hj
  have hi : i = 1 := by omega
  have hj' : j = 2 := by omega
  subst hi; subst hj'
  decide

/-- Witness for C17: the internal page with keys 30 and 60 and children 1, 2 and
4; the child for 45 is 2, for 5 it is 1, for 60 and 70 it is 4. -/
theorem FindChildPageId_covers_witness :
    TotalOrderComparator treeAt3.comparator ∧ 0 ≤ fullParent.GetSize ∧
    InternalSorted treeAt3.comparator fullParent ∧
    (∃ i, CoversKey treeAt3.comparator fullParent 45 i ∧
      treeAt3.FindChildPageId 45 fullParent = BPlusTreeInternalPage.ValueAt fullParent i) ∧
    treeAt3.FindChildPageId 45 fullParent = 2 ∧
    treeAt3.FindChildPageId 5 fullParent = 1 ∧
    treeAt3.FindChildPageId 60 fullParent = 4 ∧
    treeAt3.FindChildPageId 70 fullParent = 4 :=
  ⟨GenericComparator_total, by decide, fullParent_sorted,
    (FindChildPageId_covers treeAt3 fullParent 45 GenericComparator_total (by decide)
      fullParent_sorted).1, by decide, by decide, by decide, by decide⟩

/-! ## Lemmas on pins and on `InsertInParent` -/

theorem FetchPage_pin_mono (bpm : BufferPoolManager) (id j : page_id_t) :
    bpm.pin_count j ≤ (bpm.FetchPage id).2.pin_count j := by
  unfold BufferPoolManager.FetchPage
  cases h : bpm.pages id with
  | none => exact le_refl _
  | some p =>
    by_cases hj : j = id
    · simp [hj]
    · simp [hj]

theorem FetchPage_pin_self (bpm : BufferPoolManager) (id : page_id_t) (p : BPlusTreePage)
    (h : bpm.pages id = some p) :
    (bpm.FetchPage id).2.pin_count id = bpm.pin_count id + 1 := by
  unfold BufferPoolManager.FetchPage
  simp [h]

/-- The descent of `GetValue` lowers no pin count: it never calls `UnpinPage`. -/
theorem GetValue_loop_pin_mono (t : BPlusTree) (key : KeyType) (fuel : Nat) :
    ∀ (id : page_id_t) (bpm : BufferPoolManager) (j : page_id_t),
      bpm.pin_count j ≤ (GetValue.loop t key fuel id bpm).2.pin_count j := by
  induction fuel with
  | zero => intro id bpm j; exact le_refl _
  | succ f ih =>
    intro id bpm j
    rw [GetValue_loop_succ]
    cases hp : bpm.pages id with
    | none => exact FetchPage_pin_mono bpm id j
    | some node =>
      by_cases hl : node.IsLeafPage = true
      · simp only [hl, if_true]
        exact FetchPage_pin_mono bpm id j
      · simp only [hl]
        exact le_trans (FetchPage_pin_mono bpm id j) (ih _ _ j)

theorem scanValues_none (valueAt : Int → page_id_t) (target : page_id_t) (n : Nat) :
    ∀ i0 : Int, (∀ j, i0 ≤ j → j < i0 + n → valueAt j ≠ target) →
      scanValues valueAt target n i0 = i0 + n := by
  induction n with
  | zero => intro i0 _; simp [scanValues]
  | succ n ih =>
    intro i0 h
    rw [scanValues, if_neg (h i0 (le_refl _) (by push_cast; omega)), ih (i0 + 1)]
    · push_cast; omega
    · intro j h1 h2
      exact h j (by omega) (by push_cast; omega)

theorem shiftInternal_header (n : Nat) :
    ∀ (j : Int) (p : BPlusTreePage),
      (shiftInternal n j p).size = p.size ∧ (shiftInternal n j p).page_id = p.page_id ∧
      (shiftInternal n j p).parent_page_id = p.parent_page_id := by
  induction n with
  | zero => intro j p; simp [shiftInternal]
  | succ n ih =>
    intro j p
    simp [shiftInternal, ih, BPlusTreeInternalPage.SetKeyAt, BPlusTreeInternalPage.SetValueAt]

theorem InsertInParent_place_header (parent_node node : BPlusTreePage) (key : KeyType)
    (node_extra : BPlusTreePage) :
    (InsertInParent.place parent_node node key node_extra).size = parent_node.size ∧
    (InsertInParent.place parent_node node key node_extra).page_id = parent_node.page_id ∧
    (InsertInParent.place parent_node node key node_extra).parent_page_id
      = parent_node.parent_page_id := by
  unfold InsertInParent.place
  simp [BPlusTreeInternalPage.SetKeyAt, BPlusTreeInternalPage.SetValueAt, shiftInternal_header]

/-- The has-room branch of `InsertInParent` (lines 108-125), worked out. -/
theorem InsertInParent_room_eq (fuel : Nat) (t : BPlusTree) (bpm : BufferPoolManager)
    (node : BPlusTreePage) (key : KeyType) (node_extra parent_node : BPlusTreePage)
    (hnr : node.GetPageId ≠ t.root_page_id)
    (hp : bpm.pages node.GetParentPageId = some parent_node)
    (hroom : parent_node.GetSize < parent_node.GetMaxSize) :
    InsertInParent (fuel + 1) t bpm node key node_extra =
      (Ret.returned true, t, (bpm.FetchPage node.GetParentPageId).2.WritePage
        node.GetParentPageId (InsertInParent.place parent_node node key node_extra)) := by
  rw [InsertInParent]
  simp only [hnr, if_false]
  have h1 := FetchPage_fst bpm node.GetParentPageId
  generalize bpm.FetchPage node.GetParentPageId = r at h1
  obtain ⟨o, b⟩ := r
  simp only at h1
  rw [hp] at h1
  subst h1
  simp only [hroom, if_true]

/-- The place chosen by lines 109-123 when no child slot of the parent holds
the parent's own page id: the search runs past the last slot, nothing is
shifted, and the new key and child id land in slot `size + 2`. -/
theorem InsertInParent_place_eq (parent_node node : BPlusTreePage) (key : KeyType)
    (node_extra : BPlusTreePage) (hsize : 0 ≤ parent_node.GetSize)
    (hself : ∀ j, 0 ≤ j → j ≤ parent_node.GetSize →
      BPlusTreeInternalPage.ValueAt parent_node j ≠ node.GetParentPageId) :
    InsertInParent.place parent_node node key node_extra =
      { parent_node with
        internal_array := fun j =>
          if j = parent_node.GetSize + 2 then (key, node_extra.GetPageId)
          else parent_node.internal_array j } := by
  unfold InsertInParent.place
  have hn : (((parent_node.GetSize + 1).toNat : Nat) : Int) = parent_node.GetSize + 1 :=
    Int.toNat_of_nonneg (by omega)
  have hscan := scanValues_none (BPlusTreeInternalPage.ValueAt parent_node) node.GetParentPageId
    (parent_node.GetSize + 1).toNat 0 (by
      intro j h1 h2
      rw [hn] at h2
      exact hself j h1 (by omega))
  rw [hn] at hscan
  simp only [hscan]
  have hz : (parent_node.GetSize - (0 + (parent_node.GetSize + 1))).toNat = 0 := by omega
  rw [hz]
  simp only [shiftInternal, BPlusTreeInternalPage.SetKeyAt, BPlusTreeInternalPage.SetValueAt]
  congr 1
  funext j
  have e : (0 : Int) + (parent_node.GetSize + 1) + 1 = parent_node.GetSize + 2 := by omega
  rw [e]
  by_cases hj : j = parent_node.GetSize + 2 <;> simp [hj]

/-- A call of `InsertInParent` on a node that is not the root and whose parent
page the pool cannot supply dereferences a null pointer. -/
theorem InsertInParent_crash_eq (fuel : Nat) (t : BPlusTree) (bpm : BufferPoolManager)
    (node : BPlusTreePage) (key : KeyType) (node_extra : BPlusTreePage)
    (hnr : node.GetPageId ≠ t.root_page_id)
    (hp : bpm.pages node.GetParentPageId = none) :
    InsertInParent (fuel + 1) t bpm node key node_extra =
      (Ret.crashed, t, (bpm.FetchPage node.GetParentPageId).2) := by
  rw [InsertInParent]
  simp only [hnr, if_false]
  have h1 := FetchPage_fst bpm node.GetParentPageId
  generalize bpm.FetchPage node.GetParentPageId = r at h1
  obtain ⟨o, b⟩ := r
  simp only at h1
  rw [hp] at h1
  subst h1
  rfl

/-- The full-parent branch of `InsertInParent` (lines 126-161): the recursive
call runs on the parent page, with `root_page_id_` already set to the page id
allocated at line 145. -/
theorem InsertInParent_full_eq (fuel : Nat) (t : BPlusTree) (bpm : BufferPoolManager)
    (node : BPlusTreePage) (key : KeyType) (node_extra parent_node : BPlusTreePage)
    (hnr : node.GetPageId ≠ t.root_page_id)
    (hp : bpm.pages node.GetParentPageId = some parent_node)
    (hfull : ¬ parent_node.GetSize < parent_node.GetMaxSize) :
    ∃ (p2 e3 : BPlusTreePage) (k : KeyType),
      p2.GetPageId = parent_node.GetPageId ∧
      p2.GetParentPageId = parent_node.GetParentPageId ∧
      InsertInParent (fuel + 1) t bpm node key node_extra =
        match InsertInParent fuel { t with root_page_id := bpm.next_page_id }
            ((bpm.FetchPage node.GetParentPageId).2.NewPage.2.WritePage node.GetParentPageId p2)
            p2 k e3 with
        | (Ret.returned _, t2, bpm3) => (Ret.returned true, t2, bpm3)
        | (Ret.crashed, t2, bpm3) => (Ret.crashed, t2, bpm3)
        | (Ret.diverged, t2, bpm3) => (Ret.diverged, t2, bpm3) := by
  rw [InsertInParent]
  simp only [hnr, if_false]
  have h1 := FetchPage_fst bpm node.GetParentPageId
  have h2 := FetchPage_next_page_id bpm node.GetParentPageId
  generalize bpm.FetchPage node.GetParentPageId = r at h1 h2
  obtain ⟨o, b⟩ := r
  simp only at h1 h2
  rw [hp] at h1
  subst h1
  simp only [hfull, if_false, NewPage_fst, h2]
  refine ⟨_, _, _, ?_, ?_, rfl⟩
  · simp only [BPlusTreePage.GetPageId, BPlusTreePage.SetSize]
    rw [(InsertInParent_place_header _ _ _ _).2.1]
  · simp only [BPlusTreePage.GetParentPageId, BPlusTreePage.SetSize]
    rw [(InsertInParent_place_header _ _ _ _).2.2]

/-! ## The claims C11 to C20 -/

/-- C11 (`GetRootPageId`), which the code breaks: `GetRootPageId()` returns the
constant 0 in every state.  For a newly constructed tree the root page id is
`INVALID_PAGE_ID`, and after `Insert(1, 100)` on the empty tree it is 1; the
function returns 0 in both states. -/
theorem GetRootPageId_constant :
    (∀ t : BPlusTree, t.GetRootPageId = 0) ∧
    (∀ (comparator : KeyComparator) (leaf_max_size internal_max_size : Int),
      (BPlusTree.new comparator leaf_max_size internal_max_size).root_page_id
        = INVALID_PAGE_ID ∧
      (BPlusTree.new comparator leaf_max_size internal_max_size).GetRootPageId
        ≠ (BPlusTree.new comparator leaf_max_size internal_max_size).root_page_id) ∧
    (BPlusTree.Insert 1 (BPlusTree.new GenericComparator 4 4) leafPool 1 100).1
      = Ret.returned true ∧
    (BPlusTree.Insert 1 (BPlusTree.new GenericComparator 4 4) leafPool 1 100).2.1.root_page_id
      = 1 ∧
    (BPlusTree.Insert 1 (BPlusTree.new GenericComparator 4 4) leafPool 1 100).2.1.GetRootPageId
      = 0 :=
  ⟨fun _ => rfl, fun _ _ _ => ⟨rfl, show (0 : Int) ≠ -1 by decide⟩, by decide, by decide, rfl⟩

/-- C12 (`IsEmpty`): a newly constructed tree is empty, and in every state
`IsEmpty()` is true exactly when `root_page_id_` equals `INVALID_PAGE_ID`. -/
theorem IsEmpty_iff_root_invalid :
    (∀ (comparator : KeyComparator) (leaf_max_size internal_max_size : Int),
      (BPlusTree.new comparator leaf_max_size internal_max_size).IsEmpty = true) ∧
    (∀ t : BPlusTree, t.IsEmpty = true ↔ t.root_page_id = INVALID_PAGE_ID) :=
  ⟨fun _ _ _ => rfl, fun t => by simp [BPlusTree.IsEmpty]⟩

/-- C15 (ordered iteration), which the code breaks: `Begin()` and `End()` both
return a default-constructed iterator, whatever the tree holds.  So whatever
the iterator class does, the outcome `traverse` of iterating from `Begin()` to
`End()` over a given pool is the same for every tree stored in that pool.  Two
trees are built in one pool, the first by `Insert(1, 100)` (root page 1), the
second by `Insert(2, 200)` (root page 2): the iteration cannot yield (1, 100)
for the first and (2, 200) for the second. -/
theorem Begin_End_ignore_tree {IndexIterator : Type} (default_constructed : IndexIterator)
    (traverse : IndexIterator → IndexIterator → BufferPoolManager → List (KeyType × ValueType)) :
    (∀ (t1 t2 : BPlusTree) (bpm : BufferPoolManager),
      Begin default_constructed t1 bpm = End default_constructed t1 bpm ∧
      traverse (Begin default_constructed t1 bpm) (End default_constructed t1 bpm) bpm
        = traverse (Begin default_constructed t2 bpm) (End default_constructed t2 bpm) bpm) ∧
    (BPlusTree.Insert 1 (BPlusTree.new GenericComparator 4 4) leafPool 1 100).1
      = Ret.returned true ∧
    (BPlusTree.Insert 1 (BPlusTree.new GenericComparator 4 4) leafPool 1 100).2.1.root_page_id
      = 1 ∧
    (BPlusTree.Insert 1 (BPlusTree.new GenericComparator 4 4) twoTreePool 2 200).1
      = Ret.returned true ∧
    (BPlusTree.Insert 1 (BPlusTree.new GenericComparator 4 4) twoTreePool 2 200).2.1.root_page_id
      = 2 ∧
    ((BPlusTree.Insert 1 (BPlusTree.new GenericComparator 4 4) twoTreePool 2 200).2.2.pages 1).map
      (fun p => p.leaf_array 1) = some (1, 100) ∧
    ((BPlusTree.Insert 1 (BPlusTree.new GenericComparator 4 4) twoTreePool 2 200).2.2.pages 2).map
      (fun p => p.leaf_array 1) = some (2, 200) ∧
    ¬ (traverse
        (Begin default_constructed
          (BPlusTree.Insert 1 (BPlusTree.new GenericComparator 4 4) leafPool 1 100).2.1
          (BPlusTree.Insert 1 (BPlusTree.new GenericComparator 4 4) twoTreePool 2 200).2.2)
        (End default_constructed
          (BPlusTree.Insert 1 (BPlusTree.new GenericComparator 4 4) leafPool 1 100).2.1
          (BPlusTree.Insert 1 (BPlusTree.new GenericComparator 4 4) twoTreePool 2 200).2.2)
        (BPlusTree.Insert 1 (BPlusTree.new GenericComparator 4 4) twoTreePool 2 200).2.2
          = [(1, 100)] ∧
      traverse
        (Begin default_constructed
          (BPlusTree.Insert 1 (BPlusTree.new GenericComparator 4 4) twoTreePool 2 200).2.1
          (BPlusTree.Insert 1 (BPlusTree.new GenericComparator 4 4) twoTreePool 2 200).2.2)
        (End default_constructed
          (BPlusTree.Insert 1 (BPlusTree.new GenericComparator 4 4) twoTreePool 2 200).2.1
          (BPlusTree.Insert 1 (BPlusTree.new GenericComparator 4 4) twoTreePool 2 200).2.2)
        (BPlusTree.Insert 1 (BPlusTree.new GenericComparator 4 4) twoTreePool 2 200).2.2
          = [(2, 200)]) := by
  refine ⟨fun _ _ _ => ⟨rfl, rfl⟩, by decide, by decide, by decide, by decide, by decide,
    by decide, ?_⟩
  rintro ⟨h1, h2⟩
  simp only [Begin, End] at h1 h2
  rw [h1] at h2
  exact absurd h2 (by decide)

/-- C16 (lookup releases its pins), which the code breaks: `GetValue` never
calls `UnpinPage`.  In a tree in which the descent for `key` reaches a leaf,
`GetValue` returns, no pin count is lower than before, and the pin count of the
root page is higher than before the call. -/
theorem GetValue_keeps_pins (t : BPlusTree) (bpm : BufferPoolManager) (key : KeyType)
    (result : List ValueType) (n : Nat) (lid : page_id_t) (l : BPlusTreePage)
    (h : TargetLeaf t bpm.pages key n t.root_page_id lid l) (fuel : Nat) (hf : n < fuel) :
    (GetValue fuel t bpm key result).1 = Ret.returned false ∧
    (∀ j, bpm.pin_count j ≤ (GetValue fuel t bpm key result).2.2.pin_count j) ∧
    bpm.pin_count t.root_page_id + 1
      ≤ (GetValue fuel t bpm key result).2.2.pin_count t.root_page_id := by
  have h1 := GetValue_loop_of_targetLeaf t key n t.root_page_id lid l bpm h fuel hf
  have hg : (GetValue fuel t bpm key result).2.2
      = (GetValue.loop t key fuel t.root_page_id bpm).2 := by
    unfold GetValue
    generalize GetValue.loop t key fuel t.root_page_id bpm = r
    obtain ⟨o, b⟩ := r
    cases o <;> rfl
  have hr : (GetValue fuel t bpm key result).1 = Ret.returned false := by
    unfold GetValue
    generalize GetValue.loop t key fuel t.root_page_id bpm = r at h1
    obtain ⟨o, b⟩ := r
    simp only at h1
    subst h1
    rfl
  refine ⟨hr, ?_, ?_⟩
  · intro j
    rw [hg]
    exact GetValue_loop_pin_mono t key fuel t.root_page_id bpm j
  · rw [hg]
    obtain ⟨f, rfl⟩ : ∃ f, fuel = f + 1 := ⟨fuel - 1, by omega⟩
    obtain ⟨p, hp⟩ : ∃ p, bpm.pages t.root_page_id = some p := by
      cases h with
      | leaf _ _ hp _ => exact ⟨l, hp⟩
      | step _ _ _ p _ hp _ _ => exact ⟨p, hp⟩
    rw [GetValue_loop_succ, hp]
    have hs := FetchPage_pin_self bpm t.root_page_id p hp
    by_cases hl : p.IsLeafPage = true
    · simp only [hl, if_true]
      exact le_of_eq hs.symm
    · simp only [hl]
      rw [← hs]
      exact GetValue_loop_pin_mono t key f _ _ t.root_page_id

/-- Witness for C16: the tree with the internal root page 3 over the leaves 1, 2
and 4; `GetValue(45)` fetches pages 3 and 2 and returns with both pin counts at
1 instead of 0. -/
theorem GetValue_keeps_pins_witness :
    (∃ l, TargetLeaf treeAt3 fullParentPool.pages 45 1 treeAt3.root_page_id 2 l) ∧
    (GetValue 2 treeAt3 fullParentPool 45 []).1 = Ret.returned false ∧
    fullParentPool.pin_count 3 = 0 ∧ fullParentPool.pin_count 2 = 0 ∧
    fullParentPool.pin_count treeAt3.root_page_id + 1
      ≤ (GetValue 2 treeAt3 fullParentPool 45 []).2.2.pin_count treeAt3.root_page_id ∧
    (GetValue 2 treeAt3 fullParentPool 45 []).2.2.pin_count 3 = 1 ∧
    (GetValue 2 treeAt3 fullParentPool 45 []).2.2.pin_count 2 = 1 :=
  have ht : TargetLeaf treeAt3 fullParentPool.pages 45 1 treeAt3.root_page_id 2 (childLeaf 2) :=
    TargetLeaf.step 0 3 2 fullParent (childLeaf 2) rfl rfl
      (TargetLeaf.leaf 2 (childLeaf 2) rfl rfl)
  have hx := GetValue_keeps_pins treeAt3 fullParentPool 45 [] 1 2 (childLeaf 2) ht 2 (by decide)
  ⟨⟨_, ht⟩, hx.1, rfl, rfl, hx.2.2, by decide, by decide⟩

/-- C19 (parent insert with room), which the code breaks.  For a node that is
not the root, whose parent has `size < max_size` and (as in every well-formed
tree) holds its own page id in none of its child slots: `InsertInParent`
returns true, the parent's size stays as it was, the new key and child id are
stored in slot `size + 2`, and every other slot is unchanged; the slot right of
the node's slot does not receive them.  The search of lines 110-114 looks for the
parent's page id, not the node's, and no statement raises the size. -/
theorem InsertInParent_with_room (fuel : Nat) (t : BPlusTree) (bpm : BufferPoolManager)
    (node : BPlusTreePage) (key : KeyType) (node_extra parent_node : BPlusTreePage)
    (hnr : node.GetPageId ≠ t.root_page_id)
    (hp : bpm.pages node.GetParentPageId = some parent_node)
    (hroom : parent_node.GetSize < parent_node.GetMaxSize)
    (hsize : 0 ≤ parent_node.GetSize)
    (hself : ∀ j, 0 ≤ j → j ≤ parent_node.GetSize →
      BPlusTreeInternalPage.ValueAt parent_node j ≠ node.GetParentPageId) :
    (InsertInParent (fuel + 1) t bpm node key node_extra).1 = Ret.returned true ∧
    ∃ p', (InsertInParent (fuel + 1) t bpm node key node_extra).2.2.pages node.GetParentPageId
        = some p' ∧
      p'.GetSize = parent_node.GetSize ∧
      p'.internal_array (parent_node.GetSize + 2) = (key, node_extra.GetPageId) ∧
      ∀ j, j ≠ parent_node.GetSize + 2 → p'.internal_array j = parent_node.internal_array j := by
  rw [InsertInParent_room_eq fuel t bpm node key node_extra parent_node hnr hp hroom,
    InsertInParent_place_eq parent_node node key node_extra hsize hself]
  refine ⟨rfl, _, WritePage_pages_self _ _ _, rfl, by simp, ?_⟩
  intro j hj
  simp [hj]

/-- Witness for C19: the parent page 3 has size 1 (max size 4) and holds the
node's page id 1 in child slot 0; key 20 and the new child 4 are handed in.
Afterwards the size is still 1, slot 1 still holds (30, 2), and (20, 4) sits in
slot 3. -/
theorem InsertInParent_with_room_witness :
    (childLeaf 1).GetPageId ≠ treeAt3.root_page_id ∧
    roomParentPool.pages (childLeaf 1).GetParentPageId = some roomParent ∧
    roomParent.GetSize < roomParent.GetMaxSize ∧ 0 ≤ roomParent.GetSize ∧
    BPlusTreeInternalPage.ValueAt roomParent 0 = (childLeaf 1).GetPageId ∧
    (InsertInParent 1 treeAt3 roomParentPool (childLeaf 1) 20 (childLeaf 4)).1
      = Ret.returned true ∧
    ((InsertInParent 1 treeAt3 roomParentPool (childLeaf 1) 20 (childLeaf 4)).2.2.pages 3).map
      BPlusTreePage.GetSize = some 1 ∧
    ((InsertInParent 1 treeAt3 roomParentPool (childLeaf 1) 20 (childLeaf 4)).2.2.pages 3).map
      (fun p => p.internal_array 1) = some (30, 2) ∧
    ((InsertInParent 1 treeAt3 roomParentPool (childLeaf 1) 20 (childLeaf 4)).2.2.pages 3).map
      (fun p => p.internal_array 3) = some (20, 4) :=
  have hself : ∀ j, 0 ≤ j → j ≤ roomParent.GetSize →
      BPlusTreeInternalPage.ValueAt roomParent j ≠ (childLeaf 1).GetParentPageId := by
    intro j h0 h1
    have h1' : j ≤ 1 := h1
    have : j = 0 ∨ j = 1 := by omega
    rcases this with rfl | rfl <;> decide
  have hx := InsertInParent_with_room 0 treeAt3 roomParentPool (childLeaf 1) 20 (childLeaf 4)
    roomParent (by decide) rfl (by decide) (by decide) hself
  ⟨by decide, rfl, by decide, by decide, by decide, hx.1, by decide, by decide, by decide⟩

/-- C20 (split propagation terminates), which the code breaks.  For a node
whose parent is the root and is full, in a pool that holds no page under
`INVALID_PAGE_ID`: `InsertInParent` does not reach the root case.  Line 145
overwrites `root_page_id_` with the id of the page it allocates, so the
recursive call on the root finds `GetPageId() != root_page_id_`, calls
`FetchPage(INVALID_PAGE_ID)` and dereferences the null pointer it gets. -/
theorem InsertInParent_full_root (fuel : Nat) (t : BPlusTree) (bpm : BufferPoolManager)
    (node : BPlusTreePage) (key : KeyType) (node_extra parent_node : BPlusTreePage)
    (hnr : node.GetPageId ≠ t.root_page_id)
    (hp : bpm.pages node.GetParentPageId = some parent_node)
    (hfull : ¬ parent_node.GetSize < parent_node.GetMaxSize)
    (hpr : parent_node.GetPageId = t.root_page_id)
    (hpp : parent_node.GetParentPageId = INVALID_PAGE_ID)
    (hinv : bpm.pages INVALID_PAGE_ID = none)
    (hnext : bpm.next_page_id ≠ INVALID_PAGE_ID)
    (hfresh : bpm.next_page_id ≠ t.root_page_id) :
    (InsertInParent (fuel + 2) t bpm node key node_extra).1 = Ret.crashed ∧
    (InsertInParent (fuel + 2) t bpm node key node_extra).2.1.root_page_id
      = bpm.next_page_id ∧
    (InsertInParent (fuel + 2) t bpm node key node_extra).2.2.fetch_log
      = INVALID_PAGE_ID :: node.GetParentPageId :: bpm.fetch_log := by
  obtain ⟨p2, e3, k, hid, hpar, heq⟩ :=
    InsertInParent_full_eq (fuel + 1) t bpm node key node_extra parent_node hnr hp hfull
  have hne : node.GetParentPageId ≠ INVALID_PAGE_ID := by
    intro he
    rw [he, hinv] at hp
    exact absurd hp (by simp)
  have hnr2 : p2.GetPageId ≠ ({ t with root_page_id := bpm.next_page_id } : BPlusTree).root_page_id := by
    rw [hid, hpr]
    exact fun e => hfresh e.symm
  have hp2 : ((bpm.FetchPage node.GetParentPageId).2.NewPage.2.WritePage node.GetParentPageId
      p2).pages p2.GetParentPageId = none := by
    rw [hpar, hpp, WritePage_pages_other _ _ _ _ (fun e => hne e.symm),
      NewPage_pages_other _ _ (by rw [FetchPage_next_page_id]; exact fun e => hnext e.symm),
      FetchPage_pages, hinv]
  rw [heq, InsertInParent_crash_eq fuel _ _ p2 k e3 hnr2 hp2]
  refine ⟨rfl, rfl, ?_⟩
  simp only [FetchPage_fetch_log, hpar, hpp]
  have hl : ((bpm.FetchPage node.GetParentPageId).2.NewPage.2.WritePage node.GetParentPageId
      p2).fetch_log = (bpm.FetchPage node.GetParentPageId).2.fetch_log := rfl
  rw [hl, FetchPage_fetch_log]

/-- Witness for C20: a tree of height 2 whose root, page 3, is full (size 2, max
size 2); `InsertInParent` on its child leaf 1 crashes after one recursive call,
with `root_page_id_` left at the newly allocated page 6. -/
theorem InsertInParent_full_root_witness :
    (childLeaf 1).GetPageId ≠ treeAt3.root_page_id ∧
    fullParentPool.pages (childLeaf 1).GetParentPageId = some fullParent ∧
    ¬ fullParent.GetSize < fullParent.GetMaxSize ∧
    fullParent.GetPageId = treeAt3.root_page_id ∧
    fullParent.GetParentPageId = INVALID_PAGE_ID ∧
    fullParentPool.pages INVALID_PAGE_ID = none ∧
    (InsertInParent 2 treeAt3 fullParentPool (childLeaf 1) 20 (childLeaf 5)).1 = Ret.crashed ∧
    (InsertInParent 2 treeAt3 fullParentPool (childLeaf 1) 20 (childLeaf 5)).2.1.root_page_id
      = 6 ∧
    (InsertInParent 2 treeAt3 fullParentPool (childLeaf 1) 20 (childLeaf 5)).2.2.fetch_log
      = [-1, 3] :=
  have hx := InsertInParent_full_root 0 treeAt3 fullParentPool (childLeaf 1) 20 (childLeaf 5)
    fullParent (by decide) rfl (by decide) rfl rfl rfl (by decide) (by decide)
  ⟨by decide, rfl, by decide, rfl, rfl, rfl, hx.1, hx.2.1, hx.2.2⟩

/-! ## The claims C21 and C22 -/

/-- C21 (leaf initialisation): whatever the page held before, after
`Init(page_id, parent_id, max_size)` the page reports `GetPageId() == page_id`,
`GetParentPageId() == parent_id`, `GetMaxSize() == max_size`,
`IsLeafPage() == true` and `GetSize() == 0`.  The next page id and the slots are
left as they were (line 38 stores `next_page_id_` into itself). -/
theorem LeafPage_Init_fields (p : BPlusTreePage) (page_id parent_id : page_id_t)
    (max_size : Int) :
    (BPlusTreeLeafPage.Init p page_id parent_id max_size).GetPageId = page_id ∧
    (BPlusTreeLeafPage.Init p page_id parent_id max_size).GetParentPageId = parent_id ∧
    (BPlusTreeLeafPage.Init p page_id parent_id max_size).GetMaxSize = max_size ∧
    (BPlusTreeLeafPage.Init p page_id parent_id max_size).IsLeafPage = true ∧
    (BPlusTreeLeafPage.Init p page_id parent_id max_size).GetSize = 0 ∧
    BPlusTreeLeafPage.GetNextPageId (BPlusTreeLeafPage.Init p page_id parent_id max_size)
      = BPlusTreeLeafPage.GetNextPageId p ∧
    (BPlusTreeLeafPage.Init p page_id parent_id max_size).leaf_array = p.leaf_array :=
  ⟨rfl, rfl, rfl, rfl, rfl, rfl, rfl⟩

/-- The whole of `Insert` from the state that lines 203-222 leave (the state
before the call when the tree is not empty), when the descent from there reaches
the leaf `l` stored as page `lid`. -/
theorem Insert_of_targetLeaf_from_start (t : BPlusTree) (bpm : BufferPoolManager)
    (key : KeyType) (value : ValueType) (n : Nat) (lid : page_id_t) (l : BPlusTreePage)
    (h : TargetLeaf (Insert.start t bpm).1 (Insert.start t bpm).2.pages key n
      (Insert.start t bpm).1.root_page_id lid l) (fuel : Nat) (hf : n < fuel) :
    ∃ bpm2 : BufferPoolManager,
      bpm2.pages = (Insert.start t bpm).2.pages ∧
      bpm2.next_page_id = (Insert.start t bpm).2.next_page_id ∧
      bpm2.fresh = (Insert.start t bpm).2.fresh ∧
      BPlusTree.Insert fuel t bpm key value =
        if l.GetSize < l.GetMaxSize then
          match (Insert.start t bpm).1.InsertInLeaf key value l with
          | (false, l') => (Ret.returned false, (Insert.start t bpm).1, bpm2.WritePage lid l')
          | (true, l') =>
            (Ret.returned true, (Insert.start t bpm).1,
              (bpm2.WritePage lid l').UnpinPage lid true)
        else Insert.split (Insert.start t bpm).1 bpm2 key value lid l := by
  unfold BPlusTree.Insert
  generalize Insert.start t bpm = s at h
  obtain ⟨t1, bpm1⟩ := s
  simp only at h ⊢
  have h1 := Insert_loop_of_targetLeaf t1 key n t1.root_page_id lid l bpm1 h fuel hf
  have h2 := Insert_loop_frame t1 key fuel t1.root_page_id bpm1
  refine ⟨(Insert.loop t1 key fuel t1.root_page_id bpm1).2, h2.1, h2.2.1, h2.2.2, ?_⟩
  generalize Insert.loop t1 key fuel t1.root_page_id bpm1 = r at h1
  obtain ⟨o, b⟩ := r
  simp only at h1
  subst h1
  rfl

/-- The split path of `Insert` sets `root_page_id_` to the id of the page it
allocates whichever way `InsertInLeaf` on the overflow object answers: the
allocation of line 253 comes before the test of line 264. -/
theorem Insert_split_root (t : BPlusTree) (bpm : BufferPoolManager) (key : KeyType)
    (value : ValueType) (id : page_id_t) (l : BPlusTreePage) :
    (Insert.split t bpm key value id l).2.1.root_page_id = bpm.next_page_id ∧
    (Insert.split t bpm key value id l).2.2.next_page_id = bpm.next_page_id + 1 := by
  unfold Insert.split
  simp only [NewPage_fst]
  generalize ({ t with root_page_id := bpm.next_page_id } : BPlusTree).InsertInLeaf key value
    (copyLeaf l l.GetSize.toNat 1
      (BPlusTreeLeafPage.Init zeroPage bpm.next_page_id l.GetParentPageId
        (({ t with root_page_id := bpm.next_page_id } : BPlusTree).leaf_max_size + 1))) = r
  obtain ⟨b, o⟩ := r
  cases b <;> exact ⟨rfl, rfl⟩

/-- C22 (implicit: a full target leaf makes `Insert` overwrite the root id).
Let the state after lines 203-222 be the tree and pool from which the descent
starts (the state before the call when the tree is not empty).  When the descent
reaches a leaf with `size == max_size`, then after `Insert`, whatever it
returns, `root_page_id_` is the id of the page that the call allocated at line
253.  This holds at any depth `n` of the leaf, so also when the full leaf is not
the root, and for any key, so also for a key the leaf already holds.  (In all
these calls the value returned is true.) -/
theorem Insert_full_leaf_overwrites_root (t : BPlusTree) (bpm : BufferPoolManager)
    (key : KeyType) (value : ValueType) (n : Nat) (lid : page_id_t) (l : BPlusTreePage)
    (h : TargetLeaf (Insert.start t bpm).1 (Insert.start t bpm).2.pages key n
      (Insert.start t bpm).1.root_page_id lid l)
    (hfull : l.GetSize = l.GetMaxSize) (fuel : Nat) (hf : n < fuel) :
    (BPlusTree.Insert fuel t bpm key value).2.1.root_page_id
      = (Insert.start t bpm).2.next_page_id ∧
    (BPlusTree.Insert fuel t bpm key value).2.2.next_page_id
      = (Insert.start t bpm).2.next_page_id + 1 ∧
    (BPlusTree.Insert fuel t bpm key value).1 = Ret.returned true := by
  obtain ⟨bpm2, -, hn, -, heq⟩ :=
    Insert_of_targetLeaf_from_start t bpm key value n lid l h fuel hf
  have hnot : ¬ l.GetSize < l.GetMaxSize := by rw [hfull]; exact lt_irrefl _
  rw [heq, if_neg hnot]
  have hr := Insert_split_root (Insert.start t bpm).1 bpm2 key value lid l
  rw [hn] at hr
  refine ⟨hr.1, hr.2, ?_⟩
  rw [Insert_split_eq]

/-- Witness for C22: the full leaf is page 1, a child of the internal root page
3, and it holds key 20 already.  `Insert(20, 999)` leaves `root_page_id_` at 4,
the id of the page allocated by the call; the root was page 3 before. -/
theorem Insert_full_leaf_overwrites_root_witness :
    Insert.start treeAt3 fullChildPool = (treeAt3, fullChildPool) ∧
    TargetLeaf (Insert.start treeAt3 fullChildPool).1 (Insert.start treeAt3 fullChildPool).2.pages
      20 1 (Insert.start treeAt3 fullChildPool).1.root_page_id 1 fullChild ∧
    fullChild.GetSize = fullChild.GetMaxSize ∧
    BPlusTreeLeafPage.KeyAt fullChild 2 = 20 ∧
    treeAt3.root_page_id = 3 ∧ fullChildPool.next_page_id = 4 ∧
    (BPlusTree.Insert 2 treeAt3 fullChildPool 20 999).2.1.root_page_id = 4 ∧
    (BPlusTree.Insert 2 treeAt3 fullChildPool 20 999).2.2.next_page_id = 5 ∧
    (BPlusTree.Insert 2 treeAt3 fullChildPool 20 999).1 = Ret.returned true :=
  have ht : TargetLeaf (Insert.start treeAt3 fullChildPool).1
      (Insert.start treeAt3 fullChildPool).2.pages 20 1
      (Insert.start treeAt3 fullChildPool).1.root_page_id 1 fullChild :=
    TargetLeaf.step 0 3 1 rootOverLeaves fullChild rfl rfl
      (TargetLeaf.leaf 1 fullChild rfl rfl)
  have hx := Insert_full_leaf_overwrites_root treeAt3 fullChildPool 20 999 1 1 fullChild ht rfl
    2 (by decide)
  ⟨rfl, ht, rfl, rfl, rfl, rfl, hx.1, hx.2.1, hx.2.2⟩

end bustub
